import Mathlib

/-!
Verification development for the procedural-platformer repository
(`groksmb1.py`, `#ULTRAMARIO4K1.X10.23.25@.py`, `samsofthdrsmb4.py`).

Python floats are modelled as exact rationals (the constants involved are
decimal literals, and every operation used by the game code — `+`, `-`, `*`,
comparison, `int()` truncation — is exact on them), pygame `Rect`s as integer
rectangles with pygame's strict-overlap `colliderect`, Python `//` on ints as
floor division, and Python's `random.Random(seed)` as an oracle: an arbitrary
function from the draw counter to draw results, threaded through the
generator exactly in source draw order.  The process-global `random` module
used by `Enemy.__init__` in `groksmb1.py` is a second, independent oracle.
-/

set_option allowUnsafeReducibility true
attribute [semireducible] Rat.add Rat.mul Rat.sub Rat.neg Rat.div Rat.inv
set_option maxRecDepth 200000

/-- Python `int()` on a float value, exact on rationals: truncation toward zero. -/
def truncQ (q : ℚ) : ℤ := q.num.tdiv q.den

/-- Python `//` on integers: floor division. -/
def pydiv (a b : ℤ) : ℤ := Int.fdiv a b

/-- Python `math.ceil(a / b)` for integers `a` and positive `b`. -/
def pyceil (a b : ℤ) : ℤ := -(Int.fdiv (-a) b)

/-- The `clamp(v, lo, hi)` helper shared by the platformer variants. -/
def clampZ (v lo hi : ℤ) : ℤ := if v < lo then lo else if v > hi then hi else v

/-- The `clamp` helper applied to float (rational) values. -/
def clampQ (v lo hi : ℚ) : ℚ := if v < lo then lo else if v > hi then hi else v

/-- A pygame `Rect`: integer position and size. -/
structure Rect where
  x : ℤ
  y : ℤ
  w : ℤ
  h : ℤ
deriving DecidableEq

def Rect.right (r : Rect) : ℤ := r.x + r.w

def Rect.bottom (r : Rect) : ℤ := r.y + r.h

def Rect.centerx (r : Rect) : ℤ := r.x + pydiv r.w 2

/-- pygame `Rect.colliderect`: strict overlap on both axes. -/
def collideB (a b : Rect) : Bool :=
  decide (a.x < b.x + b.w) && decide (b.x < a.x + a.w) &&
    decide (a.y < b.y + b.h) && decide (b.y < a.y + a.h)

/-- Assigning to a pygame rect's `right` keeps the size and moves `x`. -/
def Rect.setRight (r : Rect) (v : ℤ) : Rect := { r with x := v - r.w }

/-- Assigning to a pygame rect's `left`. -/
def Rect.setLeft (r : Rect) (v : ℤ) : Rect := { r with x := v }

/-- Assigning to a pygame rect's `bottom` keeps the size and moves `y`. -/
def Rect.setBottom (r : Rect) (v : ℤ) : Rect := { r with y := v - r.h }

/-- Assigning to a pygame rect's `top`. -/
def Rect.setTop (r : Rect) (v : ℤ) : Rect := { r with y := v }

/-- The 20-by-20 pixel rectangle of grid cell `(cx, cy)` (`rect_from_cell`). -/
def cellRect (cx cy : ℤ) : Rect := ⟨20 * cx, 20 * cy, 20, 20⟩

/-- Integer interval `[a, b]` as a list, for Python `range(a, b + 1)` loops. -/
def intRange (a b : ℤ) : List ℤ := (List.range (b + 1 - a).toNat).map (fun i : ℕ => a + (i : ℤ))

/-- Reading a cell of a row-major tile map, with a default outside the lists. -/
def mapAt (m : List (List ℕ)) (cy cx : ℤ) : ℕ := ((m.getD cy.toNat []).getD cx.toNat 0)

/-- Writing one cell of a row-major tile map (`self.map[cy][cx] = v`). -/
def mapSet (m : List (List ℕ)) (cy cx : ℤ) (v : ℕ) : List (List ℕ) :=
  m.set cy.toNat ((m.getD cy.toNat []).set cx.toNat v)

namespace SS

/-! Embedding of `samsofthdrsmb4.py`: tile codes, `Level.tile_at`, the
enemy update, the enemy-contact arbitration of `Game.update_playing`, and
`Game.lose_life_and_respawn` / `Game.update_game_over`. -/

def AIR : ℕ := 0
def GROUND : ℕ := 1
def BRICK : ℕ := 2
def QBLOCK : ℕ := 3
def PIPE : ℕ := 4
def FLAG : ℕ := 5

/-- Membership in `SOLID_TILES = {GROUND, BRICK, QBLOCK, PIPE}`. -/
def solidTile (t : ℕ) : Bool := t == GROUND || t == BRICK || t == QBLOCK || t == PIPE

/-- The parts of `samsofthdrsmb4.Level` the embedded operations read. -/
structure SLevel where
  width : ℤ
  height : ℤ
  tiles : List (List ℕ)
  start_px : ℤ
  start_py : ℤ
deriving DecidableEq

/-- `Level.in_bounds`. -/
def in_bounds (lvl : SLevel) (tx ty : ℤ) : Bool :=
  decide (0 ≤ tx) && decide (tx < lvl.width) && decide (0 ≤ ty) && decide (ty < lvl.height)

/-- `Level.tile_at`: in-bounds cells read the map; out of bounds, the left
border reads `BRICK`, below the bottom reads `GROUND`, everywhere else `AIR`. -/
def tile_at (lvl : SLevel) (tx ty : ℤ) : ℕ :=
  if in_bounds lvl tx ty then mapAt lvl.tiles ty tx
  else if tx < 0 then BRICK
  else if ty ≥ lvl.height then GROUND
  else AIR

/-- `Level.is_solid`. -/
def is_solid (lvl : SLevel) (tx ty : ℤ) : Bool := solidTile (tile_at lvl tx ty)

/-- An all-air 3-by-3 sample level used by concrete evaluations. -/
def sampleLevel : SLevel :=
  ⟨3, 3, [[0, 0, 0], [0, 0, 0], [0, 0, 0]], 40, 100⟩

/-- Physics constant `GRAVITY = 0.35` of `samsofthdrsmb4.py`. -/
def GRAVITY : ℚ := (35 : ℚ) / 100

/-- Physics constant `TERMINAL_VY = 10.0`. -/
def TERMINAL_VY : ℚ := 10

/-- Physics constant `JUMP_VELOCITY = -7.2`. -/
def JUMP_VELOCITY : ℚ := -((72 : ℚ) / 10)

/-- The mutable state of a `samsofthdrsmb4.Enemy` (14-by-14 box). -/
structure SEnemy where
  x : ℚ
  y : ℚ
  vx : ℚ
  vy : ℚ
  alive : Bool
deriving DecidableEq

/-- The `Enemy.rect` property: position truncated to ints, fixed 14-by-14 size. -/
def SEnemy.rect (e : SEnemy) : Rect := ⟨truncQ e.x, truncQ e.y, 14, 14⟩

/-- `Level.solids_in_rect`: unit-tile rectangles of solid tiles near `r` that
strictly overlap `r`, in ascending row-then-column order. -/
def solids_in_rect (lvl : SLevel) (r : Rect) : List Rect :=
  let left := max 0 (pydiv r.x 20 - 1)
  let right := min (lvl.width - 1) (pydiv (r.x + r.w) 20 + 1)
  let top := max 0 (pydiv r.y 20 - 1)
  let bottom := min (lvl.height - 1) (pydiv (r.y + r.h) 20 + 1)
  (intRange top bottom).flatMap fun ty =>
    (intRange left right).filterMap fun tx =>
      if is_solid lvl tx ty && collideB r (cellRect tx ty) then some (cellRect tx ty) else none

/-- One step of the horizontal push-out loop of `Enemy.update`. -/
def enemyHStep (s : Rect × ℚ × ℚ) (solid : Rect) : Rect × ℚ × ℚ :=
  let (r, x, vx) := s
  if vx > 0 && decide (r.right > solid.x) then
    (r.setRight solid.x, ((r.setRight solid.x).x : ℚ), -vx)
  else if vx < 0 && decide (r.x < solid.right) then
    (r.setLeft solid.right, ((r.setLeft solid.right).x : ℚ), -vx)
  else (r, x, vx)

/-- One step of the vertical push-out loop of `Enemy.update`. -/
def enemyVStep (s : Rect × ℚ × ℚ) (solid : Rect) : Rect × ℚ × ℚ :=
  let (r, y, vy) := s
  if vy > 0 && decide (r.bottom > solid.y) then
    (r.setBottom solid.y, ((r.setBottom solid.y).y : ℚ), 0)
  else if vy < 0 && decide (r.y < solid.bottom) then
    (r.setTop solid.bottom, ((r.setTop solid.bottom).y : ℚ), 0)
  else (r, y, vy)

/-- `Enemy.update` of `samsofthdrsmb4.py`: gravity, ledge probe ahead of the
walk direction, then horizontal and vertical move-and-resolve. -/
def enemyUpdate (lvl : SLevel) (e0 : SEnemy) : SEnemy :=
  if !e0.alive then e0 else
  let vy1 := clampQ (e0.vy + GRAVITY) (-999) TERMINAL_VY
  let e1 : SEnemy := { e0 with vy := vy1 }
  let ahead_x := e1.rect.centerx + (if e1.vx > 0 then (8 : ℤ) else -8)
  let ahead_tx := pydiv ahead_x 20
  let feet_ty := pydiv (e1.rect.bottom + 1) 20
  let e2 : SEnemy := if !is_solid lvl ahead_tx feet_ty then { e1 with vx := -e1.vx } else e1
  let e3 : SEnemy := { e2 with x := e2.x + e2.vx }
  let hres := (solids_in_rect lvl e3.rect).foldl enemyHStep (e3.rect, e3.x, e3.vx)
  let e4 : SEnemy := { e3 with x := hres.2.1, vx := hres.2.2 }
  let e5 : SEnemy := { e4 with y := e4.y + e4.vy }
  let vres := (solids_in_rect lvl e5.rect).foldl enemyVStep (e5.rect, e5.y, e5.vy)
  { e5 with y := vres.2.1, vy := vres.2.2 }

/-- The mutable state of a `samsofthdrsmb4.Player` (14-by-18 box). -/
structure SPlayer where
  x : ℚ
  y : ℚ
  vx : ℚ
  vy : ℚ
  lives : ℤ
  score : ℤ
  coins : ℤ
deriving DecidableEq

/-- The `Player.rect` property. -/
def SPlayer.rect (p : SPlayer) : Rect := ⟨truncQ p.x, truncQ p.y, 14, 18⟩

/-- The game-state tags of `samsofthdrsmb4.py` that the core transitions use. -/
inductive SState where
  | menu : SState
  | world_map : SState
  | playing : SState
  | paused : SState
  | game_over : SState
deriving DecidableEq

/-- The part of `samsofthdrsmb4.Game` state the embedded transitions touch. -/
structure SGame where
  state : SState
  player : SPlayer
  level : SLevel
deriving DecidableEq

/-- `Game.lose_life_and_respawn`: decrement lives via `Player.kill`; on zero or
fewer remaining enter `GAME_OVER`, otherwise respawn at the level start with
zero velocity. -/
def lose_life_and_respawn (g : SGame) : SGame :=
  if g.player.lives - 1 ≤ 0 then
    { g with player := { g.player with lives := g.player.lives - 1 }, state := SState.game_over }
  else
    { g with player :=
        { g.player with
            lives := g.player.lives - 1
            x := (g.level.start_px : ℚ)
            y := (g.level.start_py : ℚ)
            vx := 0
            vy := 0 } }

/-- `Game.update_game_over`: the terminal screen leaves the state unchanged
until Enter is pressed, which returns to the world map and restores lives. -/
def update_game_over (g : SGame) (enterKey : Bool) : SGame :=
  if enterKey then { g with state := SState.world_map, player := { g.player with lives := 3 } } else g

/-- The stomp test of `Game.update_playing`: the player moves downward and the
player's bottom is within 10 pixels of the enemy's top. -/
def fallingOnto (p : SPlayer) (e : SEnemy) : Prop :=
  0 < p.vy ∧ p.rect.bottom - e.rect.y < 10

instance (p : SPlayer) (e : SEnemy) : Decidable (fallingOnto p e) := by
  unfold fallingOnto
  infer_instance

/-- The player-versus-enemy arbitration of `Game.update_playing`: on overlap
with a live enemy, a stomp kills the enemy, awards 200 points and bounces the
player at `JUMP_VELOCITY * 0.7`; any other overlap is a death. -/
def enemy_contact (g : SGame) (e : SEnemy) : SGame × SEnemy :=
  if e.alive && collideB g.player.rect e.rect then
    if fallingOnto g.player e then
      ({ g with player :=
          { g.player with vy := JUMP_VELOCITY * ((7 : ℚ) / 10), score := g.player.score + 200 } },
        { e with alive := false })
    else (lose_life_and_respawn g, e)
  else (g, e)

/-- The fall-off-the-map check of `Game.update_playing`:
`if self.player.rect.top > HEIGHT + 100: lose_life_and_respawn()`. -/
def fall_check (g : SGame) : SGame :=
  if g.player.rect.y > 400 + 100 then lose_life_and_respawn g else g

/-- A live enemy at pixel cell `(100, 100)` used by concrete evaluations. -/
def eLive : SEnemy := ⟨100, 100, 1, 0, true⟩

/-- An airborne enemy over the all-air sample level. -/
def eGrav : SEnemy := ⟨40, 0, 1, 0, true⟩

/-- A player descending onto the top of `eLive`. -/
def pStomp : SPlayer := ⟨100, 86, 0, 5, 3, 0, 0⟩

/-- A player overlapping `eLive` from the side, not descending. -/
def pSide : SPlayer := ⟨90, 100, 0, 0, 3, 0, 0⟩

/-- Game state around `pStomp`. -/
def gStomp : SGame := ⟨SState.playing, pStomp, sampleLevel⟩

/-- Game state around `pSide`. -/
def gSide : SGame := ⟨SState.playing, pSide, sampleLevel⟩

/-- A playing state with two lives left, used by concrete evaluations. -/
def gTwoLives : SGame := ⟨SState.playing, ⟨5, 5, 1, 2, 2, 7, 1⟩, sampleLevel⟩

/-- A playing state with one life left. -/
def gOneLife : SGame := ⟨SState.playing, ⟨5, 5, 1, 2, 1, 7, 1⟩, sampleLevel⟩

end SS

/-- The tile kind the specification calls `Empty` in the samsoft variant. -/
def ssEmptyKind : ℕ := SS.AIR

/-! Tile codes shared by `groksmb1.py` and `#ULTRAMARIO4K1.X10.23.25@.py`:
`EMPTY, DIRT, GRASS, PLATFORM, SPIKE, COIN, SPRING, EXIT = range(8)` with
`SOLID = {DIRT, GRASS, PLATFORM}`. -/

def EMPTY : ℕ := 0
def DIRT : ℕ := 1
def GRASS : ℕ := 2
def PLATFORM : ℕ := 3
def SPIKE : ℕ := 4
def COIN : ℕ := 5
def SPRING : ℕ := 6
def EXIT : ℕ := 7

/-- Membership in `SOLID = {DIRT, GRASS, PLATFORM}`. -/
def solidCode (t : ℕ) : Bool := t == DIRT || t == GRASS || t == PLATFORM

namespace UM

/-! Embedding of `#ULTRAMARIO4K1.X10.23.25@.py`: the velocity/coyote/jump
phase of `Player.update` (the part before `_move_and_collide`), and the coin
pickup `Player._collect`. -/

def ACCEL : ℚ := (35 : ℚ) / 100
def FRICTION : ℚ := (83 : ℚ) / 100
def MAX_RUN : ℚ := (32 : ℚ) / 10
def GRAVITY : ℚ := (35 : ℚ) / 100
def MAX_FALL : ℚ := 10
def JUMP_VELOCITY : ℚ := (76 : ℚ) / 10
def COYOTE_WINDOW : ℚ := (12 : ℚ) / 100

/-- The pressed keys `Player.update` reads. -/
structure UMKeys where
  left : Bool
  right : Bool
  jump : Bool
deriving DecidableEq

/-- The velocity-phase state of the ULTRAMARIO player: `vx`, `vy`, the coyote
grace timer and the `on_ground` flag. -/
structure UMVel where
  vx : ℚ
  vy : ℚ
  coyote : ℚ
  onGround : Bool
deriving DecidableEq

/-- The horizontal acceleration `ax` read from the keys in `Player.update`. -/
def playerAx (k : UMKeys) : ℚ := (if k.left then -ACCEL else 0) + (if k.right then ACCEL else 0)

/-- Lines 428-433 of `Player.update`: acceleration, friction with the 0.02
snap-to-zero when no horizontal key is held, and the `MAX_RUN` clamp. -/
def frictionVx (k : UMKeys) (vx : ℚ) : ℚ :=
  let ax := playerAx k
  let vx1 := vx + ax
  let vx2 := if ax = 0 then (if |vx1 * FRICTION| < (2 : ℚ) / 100 then 0 else vx1 * FRICTION) else vx1
  clampQ vx2 (-MAX_RUN) MAX_RUN

/-- Lines 436-437 of `Player.update`: gravity with clamping into `[-50, MAX_FALL]`. -/
def gravVy (vy : ℚ) : ℚ := clampQ (vy + GRAVITY) (-50) MAX_FALL

/-- Lines 440-443 of `Player.update`: refresh the coyote timer to the window
while grounded, count it down toward zero while airborne. -/
def coyoteAfter (s : UMVel) (dt : ℚ) : ℚ :=
  if s.onGround then COYOTE_WINDOW else max 0 (s.coyote - dt)

/-- Lines 421-450 of `Player.update`: horizontal acceleration and friction,
gravity with clamping, the coyote-timer refresh/countdown, and the jump test
`want_jump and self.coyote_time > 0.0`. -/
def updateVelPhase (k : UMKeys) (s : UMVel) (dt : ℚ) : UMVel :=
  if k.jump = true ∧ 0 < coyoteAfter s dt then ⟨frictionVx k s.vx, -JUMP_VELOCITY, 0, false⟩
  else ⟨frictionVx k s.vx, gravVy s.vy, coyoteAfter s dt, s.onGround⟩

/-- A run of airborne ticks: each tick feeds the velocity phase the airborne
flag that the collision step of the previous tick left behind. -/
def airborneTicks (s : UMVel) (ps : List (UMKeys × ℚ)) : UMVel :=
  ps.foldl (fun s p => updateVelPhase p.1 { s with onGround := false } p.2) s

/-- Total simulated time of a run of ticks. -/
def sumDts (ps : List (UMKeys × ℚ)) : ℚ := (ps.map fun p => p.2).sum

/-- The part of the ULTRAMARIO `Level` that `_collect` touches. -/
structure ULevel where
  cols : ℕ
  rows : ℕ
  map : List (List ℕ)
  coins : Finset (ℤ × ℤ)
deriving DecidableEq

/-- `Level.tile_at_cell`: in-bounds cells read the map, everything else `EMPTY`. -/
def tile_at_cell (lvl : ULevel) (cx cy : ℤ) : ℕ :=
  if 0 ≤ cx ∧ cx < (lvl.cols : ℤ) ∧ 0 ≤ cy ∧ cy < (lvl.rows : ℤ) then mapAt lvl.map cy cx
  else EMPTY

/-- The part of the ULTRAMARIO `Player` that `_collect` touches (integer rect
position, coin count, score). -/
structure UPlayer where
  x : ℤ
  y : ℤ
  coins : ℤ
  score : ℤ
deriving DecidableEq

/-- The ULTRAMARIO player rect: 14 wide, 18 tall. -/
def UPlayer.rect (p : UPlayer) : Rect := ⟨p.x, p.y, 14, 18⟩

/-- The cell coordinates scanned by `_collect`: rows `top..bottom` outer,
columns `left..right` inner. -/
def collectCells (r : Rect) : List (ℤ × ℤ) :=
  let left := pydiv r.x 20
  let right := pydiv (r.x + r.w - 1) 20
  let top := pydiv r.y 20
  let bottom := pydiv (r.y + r.h - 1) 20
  (intRange top bottom).flatMap fun cy => (intRange left right).map fun cx => (cx, cy)

/-- The per-cell test of `_collect`:
`level.tile_at_cell(cx, cy) == COIN and (cx, cy) in level.coins`. -/
def coinHere (lvl : ULevel) (c : ℤ × ℤ) : Bool :=
  tile_at_cell lvl c.1 c.2 == COIN && decide (c ∈ lvl.coins)

/-- The body of the `_collect` loop: remove the coin from the set, blank the
tile, and increment coin count and score. -/
def collectStep (s : ULevel × UPlayer) (c : ℤ × ℤ) : ULevel × UPlayer :=
  if coinHere s.1 c then
    ({ s.1 with coins := s.1.coins.erase c, map := mapSet s.1.map c.2 c.1 EMPTY },
      { s.2 with coins := s.2.coins + 1, score := s.2.score + 100 })
  else s

/-- `Player._collect`: fold the loop body over the overlapped cells. -/
def collect (lvl : ULevel) (p : UPlayer) : ULevel × UPlayer :=
  (collectCells p.rect).foldl collectStep (lvl, p)

/-- The cells `_collect` actually collects from a given state. -/
def collectedCoinCells (lvl : ULevel) (p : UPlayer) : List (ℤ × ℤ) :=
  (collectCells p.rect).filter (coinHere lvl)

/-- Keys with only the jump key pressed. -/
def kJump : UMKeys := ⟨false, false, true⟩

/-- Two airborne sixtieth-of-a-second ticks without a jump request. -/
def psShort : List (UMKeys × ℚ) := [(⟨false, false, false⟩, 1 / 60), (⟨true, false, false⟩, 1 / 60)]

/-- One airborne tick that exactly exhausts the coyote window. -/
def psLong : List (UMKeys × ℚ) := [(⟨false, false, false⟩, (12 : ℚ) / 100)]

/-- A 2-by-2 coin level used by concrete evaluations: a coin at cell `(0, 0)`. -/
def coinLevel : ULevel := ⟨2, 2, [[5, 0], [0, 0]], {(0, 0)}⟩

/-- A player overlapping cell `(0, 0)` of `coinLevel`. -/
def coinPlayer : UPlayer := ⟨0, 0, 0, 0⟩

end UM

namespace G1

/-! Embedding of `groksmb1.py`: the tile grid, `Level.rects_in_region`, the
player's `move_and_collide`, the enemy patrol `Enemy.update`, and the
procedural generator `Level._generate`. -/

def GRAVITY : ℚ := (35 : ℚ) / 100
def MAX_FALL : ℚ := 10
def ACCEL : ℚ := (35 : ℚ) / 100
def FRICTION : ℚ := (83 : ℚ) / 100
def MAX_RUN : ℚ := (32 : ℚ) / 10
def JUMP_VELOCITY : ℚ := (76 : ℚ) / 10
def SPRING_BOOST : ℚ := (155 : ℚ) / 100

/-- The ROWS constant: `HEIGHT // TILE = 400 // 20`. -/
def ROWS : ℕ := 20

/-- The tile grid of a groksmb1 `Level`: `self.cols`, `self.rows`, `self.map`. -/
structure Lvl where
  cols : ℕ
  rows : ℕ
  map : List (List ℕ)
deriving DecidableEq

/-- A solid cell of the grid: in bounds with a tile code in `SOLID`. -/
def isSolidCell (lvl : Lvl) (cx cy : ℤ) : Bool :=
  decide (0 ≤ cx) && decide (cx < (lvl.cols : ℤ)) && decide (0 ≤ cy) &&
    decide (cy < (lvl.rows : ℤ)) && solidCode (mapAt lvl.map cy cx)

/-- `Level.rects_in_region`: unit-tile rects of cells whose code satisfies
`codes`, over a clamped region one tile beyond `[x0, x1] × [y0, y1]`, in
ascending row-then-column order. -/
def rects_in_region (lvl : Lvl) (x0 y0 x1 y1 : ℤ) (codes : ℕ → Bool) : List Rect :=
  let rx0 := max (pydiv x0 20 - 1) 0
  let ry0 := max (pydiv y0 20 - 1) 0
  let rx1 := min (pyceil x1 20 + 1) ((lvl.cols : ℤ) - 1)
  let ry1 := min (pyceil y1 20 + 1) ((lvl.rows : ℤ) - 1)
  (intRange ry0 ry1).flatMap fun cy =>
    (intRange rx0 rx1).filterMap fun cx =>
      if codes (mapAt lvl.map cy cx) then some (cellRect cx cy) else none

/-- The player state `move_and_collide` touches. -/
structure PState where
  rect : Rect
  vx : ℚ
  vy : ℚ
  on_ground : Bool
deriving DecidableEq

/-- One iteration of the horizontal push-out loop of `Player.move_and_collide`:
on overlap, push out along x in the direction of `vx` and zero `vx`. -/
def playerHStep (s : Rect × ℚ) (r : Rect) : Rect × ℚ :=
  if collideB s.1 r then
    ((if s.2 > 0 then s.1.setRight r.x else if s.2 < 0 then s.1.setLeft (r.x + r.w) else s.1), 0)
  else s

/-- One iteration of the vertical push-out loop of `Player.move_and_collide`:
falling lands on the tile top (setting `on_ground`), rising bumps the tile
bottom; either way `vy` is zeroed. -/
def playerVStep (s : Rect × ℚ × Bool) (r : Rect) : Rect × ℚ × Bool :=
  if collideB s.1 r then
    (if s.2.1 > 0 then (s.1.setBottom r.y, 0, true)
      else if s.2.1 < 0 then (s.1.setTop (r.y + r.h), 0, s.2.2)
      else (s.1, 0, s.2.2))
  else s

/-- The horizontal half of `move_and_collide`: fold the push-out loop over the
solid tiles near the already-moved rect. -/
def hPhase (lvl : Lvl) (r : Rect) (vx : ℚ) : Rect × ℚ :=
  (rects_in_region lvl r.x r.y r.right r.bottom solidCode).foldl playerHStep (r, vx)

/-- The vertical half of `move_and_collide` (`on_ground` reset to `False`
before the loop). -/
def vPhase (lvl : Lvl) (r : Rect) (vy : ℚ) : Rect × ℚ × Bool :=
  (rects_in_region lvl r.x r.y r.right r.bottom solidCode).foldl playerVStep (r, vy, false)

/-- `Player.move_and_collide`: horizontal move and resolve, vertical move and
resolve, then friction while grounded. -/
def move_and_collide (lvl : Lvl) (p : PState) : PState :=
  let r1 : Rect := { p.rect with x := p.rect.x + truncQ p.vx }
  let h := hPhase lvl r1 p.vx
  let r2 : Rect := { h.1 with y := h.1.y + truncQ p.vy }
  let v := vPhase lvl r2 p.vy
  let vx2 := if v.2.2 then (if |h.2 * FRICTION| < (5 : ℚ) / 100 then 0 else h.2 * FRICTION) else h.2
  { rect := v.1, vx := vx2, vy := v.2.1, on_ground := v.2.2 }

/-- `Player.apply_gravity`: add gravity, cap at `MAX_FALL`. -/
def apply_gravity (vy : ℚ) : ℚ := if vy + GRAVITY > MAX_FALL then MAX_FALL else vy + GRAVITY

/-- The state of a groksmb1 `Enemy`: its 16-by-14 rect and walk velocity. -/
structure GEnemy where
  rect : Rect
  vx : ℚ
deriving DecidableEq

/-- One iteration of the wall-collision loop of `Enemy.update`: on overlap,
push out along x and flip the walk direction. -/
def enemyWallStep (s : Rect × ℚ) (r : Rect) : Rect × ℚ :=
  if collideB s.1 r then
    ((if s.2 > 0 then s.1.setRight r.x else s.1.setLeft (r.x + r.w)), -s.2)
  else s

/-- `Enemy.update` of `groksmb1.py`: horizontal move with wall bounce, then
the edge probe ahead and below; no gravity and no vertical motion. -/
def enemyUpdate (lvl : Lvl) (e : GEnemy) : GEnemy :=
  let r1 : Rect := { e.rect with x := e.rect.x + truncQ e.vx }
  let h := (rects_in_region lvl r1.x r1.y r1.right r1.bottom solidCode).foldl enemyWallStep
    (r1, e.vx)
  let ahead_x := h.1.centerx + (if h.2 > 0 then (10 : ℤ) else -10)
  let ahead_y := h.1.bottom + 2
  let below := rects_in_region lvl ahead_x ahead_y (ahead_x + 2) (ahead_y + 2) solidCode
  if below.isEmpty then { rect := h.1, vx := -h.2 } else { rect := h.1, vx := h.2 }

/-- The non-overlap invariant: the rect overlaps no solid cell of the grid. -/
def Free (lvl : Lvl) (r : Rect) : Prop :=
  ∀ cx cy : ℤ, isSolidCell lvl cx cy = true → collideB r (cellRect cx cy) = false

/-- A decidable check for `Free` over the finite grid. -/
def freeCheck (lvl : Lvl) (r : Rect) : Bool :=
  (intRange 0 ((lvl.cols : ℤ) - 1)).all fun cx =>
    (intRange 0 ((lvl.rows : ℤ) - 1)).all fun cy =>
      !(isSolidCell lvl cx cy) || !(collideB r (cellRect cx cy))

/-- A rect that is the unit tile of some solid cell of the grid. -/
def elemOK (lvl : Lvl) (r : Rect) : Prop :=
  ∃ cx cy : ℤ, r = cellRect cx cy ∧ isSolidCell lvl cx cy = true

/-- Column `c` holds a solid cell whose row range overlaps the rect `R`. -/
def yOverlap (lvl : Lvl) (R : Rect) (c : ℤ) : Prop :=
  ∃ cy : ℤ, isSolidCell lvl c cy = true ∧ R.y < 20 * cy + 20 ∧ 20 * cy < R.y + R.h

/-- Row `c` holds a solid cell whose column range overlaps the rect `R`. -/
def xOverlap (lvl : Lvl) (R : Rect) (c : ℤ) : Prop :=
  ∃ cx : ℤ, isSolidCell lvl cx c = true ∧ R.x < 20 * cx + 20 ∧ 20 * cx < R.x + R.w

/-- The unique solid column hit while moving right by `d` into position `R1`. -/
def hitColR (lvl : Lvl) (R1 : Rect) (d c : ℤ) : Prop :=
  yOverlap lvl R1 c ∧ R1.x - d + R1.w ≤ 20 * c ∧ 20 * c < R1.x + R1.w

/-- The unique solid column hit while moving left by `-d` into position `R1`. -/
def hitColL (lvl : Lvl) (R1 : Rect) (d c : ℤ) : Prop :=
  yOverlap lvl R1 c ∧ R1.x < 20 * c + 20 ∧ 20 * c + 20 ≤ R1.x - d

/-- The unique solid row hit while falling by `d` into position `R1`. -/
def hitRowD (lvl : Lvl) (R1 : Rect) (d c : ℤ) : Prop :=
  xOverlap lvl R1 c ∧ R1.y - d + R1.h ≤ 20 * c ∧ 20 * c < R1.y + R1.h

/-- The unique solid row hit while rising by `-d` into position `R1`. -/
def hitRowU (lvl : Lvl) (R1 : Rect) (d c : ℤ) : Prop :=
  xOverlap lvl R1 c ∧ R1.y < 20 * c + 20 ∧ 20 * c + 20 ≤ R1.y - d

/-- A two-column level whose bottom row is dirt, for concrete evaluations. -/
def stepLevel : Lvl := ⟨2, 2, [[0, 0], [1, 1]]⟩

/-- A player standing exactly on the dirt row of `stepLevel`, about to fall
onto it. -/
def stepPlayer : PState := ⟨⟨2, 1, 16, 18⟩, 1, 5, false⟩

/-! The procedural generator `Level._generate`. The seeded RNG
`random.Random(1337 + index * 99991)` is modelled by an `Oracle`: the k-th
call of the instance returns `ints k` (for `randint`/`choice`, reduced by the
modulus of the requested range) or `qs k` (for `random()`), in the exact draw
order of the source. `Enemy.__init__` draws from the process-global `random`
module instead, modelled as a separate stream `g : ℕ → ℕ` with its own
counter. -/

/-- The recorded outputs of one seeded `random.Random` instance, indexed by
the draw counter. -/
structure Oracle where
  ints : ℕ → ℕ
  qs : ℕ → ℚ

/-- `self.cols = min(120, 60 + index * 2)`. -/
def colsOf (index : ℕ) : ℕ := min 120 (60 + index * 2)

/-- `seed = 1337 + index * 99991`. -/
def seedOf (index : ℕ) : ℕ := 1337 + index * 99991

/-- `clamp(0.03 + self.index * 0.0025, 0, 0.10)`. -/
def pitChance (index : ℕ) : ℚ := clampQ (3 / 100 + (index : ℚ) * (25 / 10000)) 0 (10 / 100)

/-- `clamp(0.08 + self.index * 0.005, 0.08, 0.18)`. -/
def platDensity (index : ℕ) : ℚ := clampQ (8 / 100 + (index : ℚ) * (5 / 1000)) (8 / 100) (18 / 100)

/-- `clamp(0.05 + self.index * 0.007, 0.05, 0.22)`. -/
def spikeRate (index : ℕ) : ℚ := clampQ (5 / 100 + (index : ℚ) * (7 / 1000)) (5 / 100) (22 / 100)

/-- `clamp(0.12 + self.index * 0.004, 0.12, 0.22)`. -/
def coinRate (index : ℕ) : ℚ := clampQ (12 / 100 + (index : ℚ) * (4 / 1000)) (12 / 100) (22 / 100)

/-- `clamp(0.012 + self.index * 0.002, 0.012, 0.04)`. -/
def springRate (index : ℕ) : ℚ := clampQ (12 / 1000 + (index : ℚ) * (2 / 1000)) (12 / 1000) (4 / 100)

/-- `rnd.choice([-1, 0, 1])` with the k-th draw. -/
def driftChoice (o : Oracle) (k : ℕ) : ℤ := [(-1 : ℤ), 0, 1].getD (o.ints k % 3) 0

/-- The inner `for i in range(w)` of the pit branch: set `ground[x+i] = ROWS`
for the in-bounds columns. -/
def pitWrite (cols : ℕ) (gr : List ℤ) (x w : ℕ) : List ℤ :=
  (List.range w).foldl (fun g2 i => if x + i < cols then g2.set (x + i) 20 else g2) gr

/-- One iteration of the baseline-terrain loop: state is
`(ground, cur, draw counter)`; a pit roll consumes two draws, a drift roll
two or three. `x += w - 1` in the source reassigns the `for` variable and has
no effect on the next iteration. -/
def groundStep (cols index : ℕ) (o : Oracle) (s : List ℤ × ℤ × ℕ) (x : ℕ) :
    List ℤ × ℤ × ℕ :=
  if o.qs s.2.2 < pitChance index then
    (pitWrite cols s.1 x (1 + o.ints (s.2.2 + 1) % (2 + index / 8)), s.2.1, s.2.2 + 2)
  else if o.qs (s.2.2 + 1) < 23 / 100 then
    (s.1.set x (clampZ (s.2.1 + driftChoice o (s.2.2 + 2)) 10 17),
      clampZ (s.2.1 + driftChoice o (s.2.2 + 2)) 10 17, s.2.2 + 3)
  else (s.1.set x s.2.1, s.2.1, s.2.2 + 2)

/-- The baseline terrain ridge: `ground = [14]*cols`, `cur = rnd.randint(12, 16)`
(draw 0), then the per-column loop. -/
def genGround (index : ℕ) (o : Oracle) : List ℤ × ℤ × ℕ :=
  (List.range (colsOf index)).foldl (groundStep (colsOf index) index o)
    (List.replicate (colsOf index) 14, 12 + (o.ints 0 : ℤ) % 5, 1)

/-- The final ground ridge of `Level._generate`. -/
def groundOf (index : ℕ) (o : Oracle) : List ℤ := (genGround index o).1

/-- The draw counter after the terrain loop. -/
def kGround (index : ℕ) (o : Oracle) : ℕ := (genGround index o).2.2

/-- Laying one column of terrain: grass at the ground row, dirt below it. -/
def terrainCol (gr : List ℤ) (m : List (List ℕ)) (x : ℕ) : List (List ℕ) :=
  if gr.getD x 20 ≥ 20 then m
  else
    (List.range ((19 : ℤ) - gr.getD x 20).toNat).foldl
      (fun m2 i => mapSet m2 (gr.getD x 20 + 1 + (i : ℕ)) x DIRT)
      (mapSet m (gr.getD x 20) x GRASS)

/-- The `lay terrain` loop over all columns, from the all-`EMPTY` map built in
`Level.__init__`. -/
def layTerrain (cols : ℕ) (gr : List ℤ) : List (List ℕ) :=
  (List.range cols).foldl (terrainCol gr) (List.replicate ROWS (List.replicate cols EMPTY))

/-- The spawn scan `while sx < self.cols - 1 and ground[sx] >= ROWS: sx += 1`,
as fuel recursion. -/
def spawnScan (gr : List ℤ) (cols : ℕ) : ℕ → ℕ → ℕ
  | 0, sx => sx
  | fuel + 1, sx =>
    if sx < cols - 1 ∧ gr.getD sx 20 ≥ 20 then spawnScan gr cols fuel (sx + 1) else sx

/-- `self.spawn`: the first non-pit column from 2, one row above its ground. -/
def spawnOf (index : ℕ) (o : Oracle) : ℤ × ℤ :=
  ((spawnScan (groundOf index o) (colsOf index) (colsOf index) 2 : ℕ),
    if (groundOf index o).getD (spawnScan (groundOf index o) (colsOf index) (colsOf index) 2) 20
        < 20 then
      (groundOf index o).getD (spawnScan (groundOf index o) (colsOf index) (colsOf index) 2) 20 - 1
    else 6)

/-- The inner platform-laying loop: write `PLATFORM` into the `EMPTY` cells of
row `h`, columns `clamp(x+i, 0, cols-1)`. -/
def platWrite (cols : ℕ) (h : ℤ) (x w : ℕ) (m : List (List ℕ)) : List (List ℕ) :=
  (List.range w).foldl
    (fun m2 (i : ℕ) =>
      if mapAt m2 h (clampZ ((x + i : ℕ) : ℤ) 0 ((cols : ℤ) - 1)) == EMPTY then
        mapSet m2 h (clampZ ((x + i : ℕ) : ℤ) 0 ((cols : ℤ) - 1)) PLATFORM
      else m2)
    m

/-- One column of the platform loop; state is `(map, draw counter)`. -/
def platStep (cols index : ℕ) (o : Oracle) (gr : List ℤ) (s : List (List ℕ) × ℕ)
    (x : ℕ) : List (List ℕ) × ℕ :=
  if gr.getD x 20 ≥ 20 then s
  else if o.qs s.2 < platDensity index then
    (platWrite cols (clampZ (gr.getD x 20 - (3 + (o.ints (s.2 + 1) : ℤ) % 4)) 3
        (gr.getD x 20 - 2)) x (2 + o.ints (s.2 + 2) % (3 + index / 12)) s.1, s.2 + 3)
  else (s.1, s.2 + 1)

/-- The platform phase, over `range(5, cols - 5)`. -/
def platformsPhase (index : ℕ) (o : Oracle) : List (List ℕ) × ℕ :=
  (List.range' 5 (colsOf index - 10)).foldl
    (platStep (colsOf index) index o (groundOf index o))
    (layTerrain (colsOf index) (groundOf index o), kGround index o)

/-- One column of the spike loop; state is `(map, spikes, draw counter)`. -/
def spikeStep (index : ℕ) (o : Oracle) (gr : List ℤ)
    (s : List (List ℕ) × Finset (ℤ × ℤ) × ℕ) (x : ℕ) :
    List (List ℕ) × Finset (ℤ × ℤ) × ℕ :=
  if gr.getD x 20 ≥ 20 then s
  else if o.qs s.2.2 < spikeRate index ∧ mapAt s.1 (gr.getD x 20) x == GRASS then
    (mapSet s.1 (gr.getD x 20 - 1) x SPIKE, insert ((x : ℤ), gr.getD x 20 - 1) s.2.1,
      s.2.2 + 1)
  else (s.1, s.2.1, s.2.2 + 1)

/-- The spike phase, over `range(8, cols - 2)`. -/
def spikesPhase (index : ℕ) (o : Oracle) : List (List ℕ) × Finset (ℤ × ℤ) × ℕ :=
  (List.range' 8 (colsOf index - 10)).foldl (spikeStep index o (groundOf index o))
    ((platformsPhase index o).1, ∅, (platformsPhase index o).2)

/-- One column of the coin loop: the row draw always happens, the rate draw
only when `1 <= y < g` (Python short-circuit). -/
def coinStep (index : ℕ) (o : Oracle) (gr : List ℤ)
    (s : List (List ℕ) × Finset (ℤ × ℤ) × ℕ) (x : ℕ) :
    List (List ℕ) × Finset (ℤ × ℤ) × ℕ :=
  if gr.getD x 20 ≥ 20 then s
  else if h : 1 ≤ gr.getD x 20 - (2 + (o.ints s.2.2 : ℤ) % 3) ∧
      gr.getD x 20 - (2 + (o.ints s.2.2 : ℤ) % 3) < gr.getD x 20 then
    if o.qs (s.2.2 + 1) < coinRate index ∧
        mapAt s.1 (gr.getD x 20 - (2 + (o.ints s.2.2 : ℤ) % 3)) x == EMPTY then
      (mapSet s.1 (gr.getD x 20 - (2 + (o.ints s.2.2 : ℤ) % 3)) x COIN,
        insert ((x : ℤ), gr.getD x 20 - (2 + (o.ints s.2.2 : ℤ) % 3)) s.2.1, s.2.2 + 2)
    else (s.1, s.2.1, s.2.2 + 2)
  else (s.1, s.2.1, s.2.2 + 1)

/-- The coin phase, over `range(3, cols - 3)`. -/
def coinsPhase (index : ℕ) (o : Oracle) : List (List ℕ) × Finset (ℤ × ℤ) × ℕ :=
  (List.range' 3 (colsOf index - 6)).foldl (coinStep index o (groundOf index o))
    ((spikesPhase index o).1, ∅, (spikesPhase index o).2.2)

/-- One column of the spring loop: no draw at all over a pit (Python
short-circuit on `g < ROWS`). -/
def springStep (index : ℕ) (o : Oracle) (gr : List ℤ)
    (s : List (List ℕ) × Finset (ℤ × ℤ) × ℕ) (x : ℕ) :
    List (List ℕ) × Finset (ℤ × ℤ) × ℕ :=
  if gr.getD x 20 < 20 then
    if o.qs s.2.2 < springRate index ∧ mapAt s.1 (gr.getD x 20 - 1) x ≠ SPIKE then
      (mapSet s.1 (gr.getD x 20 - 1) x SPRING, insert ((x : ℤ), gr.getD x 20 - 1) s.2.1,
        s.2.2 + 1)
    else (s.1, s.2.1, s.2.2 + 1)
  else s

/-- The spring phase, over `range(10, cols - 10)`. -/
def springsPhase (index : ℕ) (o : Oracle) : List (List ℕ) × Finset (ℤ × ℤ) × ℕ :=
  (List.range' 10 (colsOf index - 20)).foldl (springStep index o (groundOf index o))
    ((coinsPhase index o).1, ∅, (coinsPhase index o).2.2)

/-- `enemy_count = clamp(2 + self.index // 2, 2, 14)`. -/
def enemyCount (index : ℕ) : ℕ :=
  if 2 + index / 2 < 2 then 2 else if 2 + index / 2 > 14 then 14 else 2 + index / 2

/-- The enemy placement loop, bounded by `tried < enemy_count * 8` (the fuel);
state is `(map, enemies, seeded counter, global counter)`. `Enemy.__init__`
draws its walk direction from the process-global stream `g`. -/
def enemyLoop (cols : ℕ) (o : Oracle) (g : ℕ → ℕ) (gr : List ℤ) (count : ℕ) :
    ℕ → List (List ℕ) × List GEnemy × ℕ × ℕ →
      List (List ℕ) × List GEnemy × ℕ × ℕ
  | 0, s => s
  | fuel + 1, s =>
    if s.2.1.length < count then
      if gr.getD (8 + o.ints s.2.2.1 % (cols - 13)) 20 ≥ 20 then
        enemyLoop cols o g gr count fuel (s.1, s.2.1, s.2.2.1 + 1, s.2.2.2)
      else if (mapAt s.1 (gr.getD (8 + o.ints s.2.2.1 % (cols - 13)) 20 - 1)
              ((8 + o.ints s.2.2.1 % (cols - 13) : ℕ) : ℤ) == EMPTY
            || mapAt s.1 (gr.getD (8 + o.ints s.2.2.1 % (cols - 13)) 20 - 1)
              ((8 + o.ints s.2.2.1 % (cols - 13) : ℕ) : ℤ) == COIN)
          ∧ mapAt s.1 (gr.getD (8 + o.ints s.2.2.1 % (cols - 13)) 20 - 1)
              ((8 + o.ints s.2.2.1 % (cols - 13) : ℕ) : ℤ) ≠ SPIKE then
        enemyLoop cols o g gr count fuel
          ((if mapAt s.1 (gr.getD (8 + o.ints s.2.2.1 % (cols - 13)) 20 - 1)
                ((8 + o.ints s.2.2.1 % (cols - 13) : ℕ) : ℤ) == EMPTY then
              mapSet s.1 (gr.getD (8 + o.ints s.2.2.1 % (cols - 13)) 20 - 1)
                ((8 + o.ints s.2.2.1 % (cols - 13) : ℕ) : ℤ) EMPTY
            else s.1),
            s.2.1 ++ [⟨⟨((8 + o.ints s.2.2.1 % (cols - 13) : ℕ) : ℤ) * 20 + 2,
              (gr.getD (8 + o.ints s.2.2.1 % (cols - 13)) 20 - 1 + 1) * 20 - 14, 16, 14⟩,
              if g s.2.2.2 % 2 == 0 then -(11 / 10 : ℚ) else 11 / 10⟩],
            s.2.2.1 + 1, s.2.2.2 + 1)
      else enemyLoop cols o g gr count fuel (s.1, s.2.1, s.2.2.1 + 1, s.2.2.2)
    else s

/-- The enemy phase: start from the post-spring map, no enemies, the seeded
counter so far, and global counter 0. -/
def enemiesPhase (index : ℕ) (o : Oracle) (g : ℕ → ℕ) :
    List (List ℕ) × List GEnemy × ℕ × ℕ :=
  enemyLoop (colsOf index) o g (groundOf index o) (enemyCount index) (enemyCount index * 8)
    ((springsPhase index o).1, [], (springsPhase index o).2.2, 0)

/-- The exit scan `while gx > self.cols - 12 and ground[gx] >= ROWS: gx -= 1`,
as fuel recursion. -/
def exitScan (gr : List ℤ) (cols : ℕ) : ℕ → ℕ → ℕ
  | 0, gx => gx
  | fuel + 1, gx =>
    if gx > cols - 12 ∧ gr.getD gx 20 ≥ 20 then exitScan gr cols fuel (gx - 1) else gx

/-- `self.exit_cell`: the scanned column, two rows above its ground (or row 6
over a pit), clamped to `[3, ROWS - 4]`. -/
def exitOf (index : ℕ) (o : Oracle) : ℤ × ℤ :=
  ((exitScan (groundOf index o) (colsOf index) (colsOf index) (colsOf index - 3) : ℕ),
    clampZ
      (if (groundOf index o).getD
            (exitScan (groundOf index o) (colsOf index) (colsOf index) (colsOf index - 3)) 20
          < 20 then
        (groundOf index o).getD
            (exitScan (groundOf index o) (colsOf index) (colsOf index) (colsOf index - 3)) 20
          - 2
      else 6)
      3 16)

/-- Everything `Level._generate` produces. -/
structure Layout where
  cols : ℕ
  grid : List (List ℕ)
  coins : Finset (ℤ × ℤ)
  springs : Finset (ℤ × ℤ)
  spikes : Finset (ℤ × ℤ)
  spawn : ℤ × ℤ
  exitCell : ℤ × ℤ
  enemies : List GEnemy
deriving DecidableEq

/-- `Level._generate`, phases in source order; the final grid write is the
`EXIT` tile. -/
def generate (index : ℕ) (o : Oracle) (g : ℕ → ℕ) : Layout :=
  { cols := colsOf index
    grid := mapSet (enemiesPhase index o g).1 (exitOf index o).2 (exitOf index o).1 EXIT
    coins := (coinsPhase index o).2.1
    springs := (springsPhase index o).2.1
    spikes := (spikesPhase index o).2.1
    spawn := spawnOf index o
    exitCell := exitOf index o
    enemies := (enemiesPhase index o g).2.1 }

/-- Constructing the level for `index`: the seeded stream is a pure function
of `seedOf index` (a family `O` of oracles indexed by seed), the global stream
`g` is whatever state the process-global RNG happens to be in. -/
def generateAt (O : ℕ → Oracle) (g : ℕ → ℕ) (index : ℕ) : Layout :=
  generate index (O (seedOf index)) g

/-- A layout with the enemy walk velocities erased: everything C1 requires to
be reproducible except the initial facing of the enemies. -/
def scrub (L : Layout) :
    ℕ × List (List ℕ) × Finset (ℤ × ℤ) × Finset (ℤ × ℤ) × Finset (ℤ × ℤ) ×
      (ℤ × ℤ) × (ℤ × ℤ) × List Rect :=
  (L.cols, L.grid, L.coins, L.springs, L.spikes, L.spawn, L.exitCell,
    L.enemies.map GEnemy.rect)

/-- Well-formed grid shape: `ROWS` rows of `cols` tiles, as built by
`Level.__init__`. -/
def WF (cols : ℕ) (m : List (List ℕ)) : Prop :=
  m.length = ROWS ∧ ∀ r ∈ m, r.length = cols

/-- A recorded seeded stream on which every pit roll succeeds with width 1. -/
def oPit : Oracle := ⟨fun _ => 0, fun _ => 0⟩

/-- A recorded seeded stream on which every probability roll fails: flat
ground at row 12, no pits, no platforms, spikes, coins or springs. -/
def oFlat : Oracle := ⟨fun _ => 0, fun _ => 1⟩

/-- A process-global stream that always picks `-1.1`. -/
def gZero : ℕ → ℕ := fun _ => 0

/-- A process-global stream that always picks `1.1`. -/
def gOne : ℕ → ℕ := fun _ => 1

end G1

theorem test_truncQ_neg : truncQ ((-5 : ℚ) / 2) = -2 := by decide

/-- C4 counterexample: the cell `(-1, 1)` is outside the grid and is not below
the last row, yet `tile_at` reads the solid `BRICK` there, not `Empty`. -/
theorem c4_left_border_not_empty :
    SS.in_bounds SS.sampleLevel (-1) 1 = false ∧ (1 : ℤ) < SS.sampleLevel.height ∧
      SS.tile_at SS.sampleLevel (-1) 1 = SS.BRICK ∧ SS.tile_at SS.sampleLevel (-1) 1 ≠ ssEmptyKind := by
  decide

/-- C4 (amended): for every cell coordinate outside the grid, `tile_at` returns
`Empty`, except coordinates left of column zero, which return the solid `BRICK`
(a left wall), and coordinates below the last row in a nonnegative column,
which return the solid `GROUND`. -/
theorem c4_out_of_bounds_reads (lvl : SS.SLevel) (tx ty : ℤ)
    (hout : SS.in_bounds lvl tx ty = false) :
    SS.tile_at lvl tx ty =
        (if tx < 0 then SS.BRICK else if lvl.height ≤ ty then SS.GROUND else ssEmptyKind) ∧
      (tx < 0 → SS.is_solid lvl tx ty = true) ∧
      (0 ≤ tx → lvl.height ≤ ty → SS.is_solid lvl tx ty = true) ∧
      (0 ≤ tx → ty < lvl.height → SS.tile_at lvl tx ty = ssEmptyKind) := by
  have ht : SS.tile_at lvl tx ty =
      (if tx < 0 then SS.BRICK else if lvl.height ≤ ty then SS.GROUND else ssEmptyKind) := by
    unfold SS.tile_at
    rw [hout]
    rw [if_neg (by simp)]
    rfl
  refine ⟨ht, fun hneg => ?_, fun h0 hge => ?_, fun h0 hlt => ?_⟩
  · unfold SS.is_solid
    rw [ht, if_pos hneg]
    rfl
  · unfold SS.is_solid
    rw [ht, if_neg (by omega), if_pos hge]
    rfl
  · rw [ht, if_neg (by omega), if_neg (by omega)]

/-- C4 witness: the amended out-of-bounds characterisation evaluated at the
concrete out-of-grid coordinate `(-1, 1)` of the sample level. -/
theorem c4_out_of_bounds_reads_witness :
    SS.tile_at SS.sampleLevel (-1) 1 =
        (if (-1 : ℤ) < 0 then SS.BRICK else if SS.sampleLevel.height ≤ 1 then SS.GROUND else ssEmptyKind) ∧
      ((-1 : ℤ) < 0 → SS.is_solid SS.sampleLevel (-1) 1 = true) ∧
      ((0 : ℤ) ≤ -1 → SS.sampleLevel.height ≤ 1 → SS.is_solid SS.sampleLevel (-1) 1 = true) ∧
      ((0 : ℤ) ≤ -1 → (1 : ℤ) < SS.sampleLevel.height → SS.tile_at SS.sampleLevel (-1) 1 = ssEmptyKind) :=
  c4_out_of_bounds_reads SS.sampleLevel (-1) 1 (by decide)

/-- C9 counterexample: the samsoft variant's enemy update does respond to
gravity — one tick over open air raises `vy` by `GRAVITY` and changes the
enemy's vertical position. -/
theorem c9_samsoft_enemy_falls :
    (SS.enemyUpdate SS.sampleLevel SS.eGrav).y ≠ SS.eGrav.y ∧
      (SS.enemyUpdate SS.sampleLevel SS.eGrav).vy = SS.eGrav.vy + SS.GRAVITY := by
  decide

/-- C7: on overlap with a live enemy the contact is classified as a stomp
exactly when the player moves downward with its bottom within 10 pixels of the
enemy's top; a stomp deactivates the enemy, awards 200 points and bounces the
player upward at a reduced jump velocity, and any other overlap invokes the
player-died handler `lose_life_and_respawn`. -/
theorem c7_stomp_vs_damage (g : SS.SGame) (e : SS.SEnemy)
    (halive : e.alive = true)
    (hov : collideB g.player.rect e.rect = true) :
    (((SS.enemy_contact g e).2.alive = false) ↔ SS.fallingOnto g.player e) ∧
      (SS.fallingOnto g.player e →
        (SS.enemy_contact g e).2.alive = false ∧
        (SS.enemy_contact g e).1.player.vy = SS.JUMP_VELOCITY * ((7 : ℚ) / 10) ∧
        (SS.enemy_contact g e).1.player.vy < 0 ∧
        SS.JUMP_VELOCITY < (SS.enemy_contact g e).1.player.vy ∧
        (SS.enemy_contact g e).1.player.score = g.player.score + 200 ∧
        (SS.enemy_contact g e).1.player.lives = g.player.lives ∧
        (SS.enemy_contact g e).1.state = g.state) ∧
      (¬ SS.fallingOnto g.player e →
        SS.enemy_contact g e = (SS.lose_life_and_respawn g, e)) := by
  unfold SS.enemy_contact
  rw [halive, hov]
  simp only [Bool.and_self, if_true]
  by_cases hf : SS.fallingOnto g.player e
  · rw [if_pos hf]
    refine ⟨⟨fun _ => hf, fun _ => rfl⟩, fun _ => ⟨rfl, rfl, ?_, ?_, rfl, rfl, rfl⟩,
      fun hnf => absurd hf hnf⟩
    · show SS.JUMP_VELOCITY * ((7 : ℚ) / 10) < 0
      decide
    · show SS.JUMP_VELOCITY < SS.JUMP_VELOCITY * ((7 : ℚ) / 10)
      decide
  · rw [if_neg hf]
    refine ⟨⟨fun hdead => ?_, fun hfall => absurd hfall hf⟩, fun hfall => absurd hfall hf,
      fun _ => rfl⟩
    have h2 : e.alive = false := hdead
    rw [halive] at h2
    exact absurd h2 (by decide)

/-- C7 witness: the descending trajectory stomps the enemy and the sideways
trajectory invokes the death handler at concrete states. -/
theorem c7_stomp_vs_damage_witness :
    (SS.enemy_contact SS.gStomp SS.eLive).2.alive = false ∧
      SS.enemy_contact SS.gSide SS.eLive = (SS.lose_life_and_respawn SS.gSide, SS.eLive) :=
  ⟨((c7_stomp_vs_damage SS.gStomp SS.eLive (by decide) (by decide)).1).mpr (by decide),
    (c7_stomp_vs_damage SS.gSide SS.eLive (by decide) (by decide)).2.2 (by decide)⟩

/-- C8: every player-died event goes through `lose_life_and_respawn`, which
decrements the lives counter by one; with lives remaining the player respawns
at the level start with zero velocity and the game state is unchanged; with
lives exhausted the game enters `GAME_OVER`, which persists until the external
Enter-key reset returns to the world map.  Pit falls past the bottom margin
and non-stomp enemy contacts both invoke this handler. -/
theorem c8_death_decrements_lives (g : SS.SGame) :
    (SS.lose_life_and_respawn g).player.lives = g.player.lives - 1 ∧
      (0 < g.player.lives - 1 →
        (SS.lose_life_and_respawn g).state = g.state ∧
        (SS.lose_life_and_respawn g).player.x = (g.level.start_px : ℚ) ∧
        (SS.lose_life_and_respawn g).player.y = (g.level.start_py : ℚ) ∧
        (SS.lose_life_and_respawn g).player.vx = 0 ∧
        (SS.lose_life_and_respawn g).player.vy = 0) ∧
      (g.player.lives - 1 ≤ 0 → (SS.lose_life_and_respawn g).state = SS.SState.game_over) ∧
      (∀ g2 : SS.SGame, SS.update_game_over g2 false = g2) ∧
      (∀ g2 : SS.SGame, (SS.update_game_over g2 true).state = SS.SState.world_map) ∧
      (∀ e : SS.SEnemy, e.alive = true → collideB g.player.rect e.rect = true →
        ¬ SS.fallingOnto g.player e → (SS.enemy_contact g e).1 = SS.lose_life_and_respawn g) ∧
      ((SS.SPlayer.rect g.player).y > 400 + 100 → SS.fall_check g = SS.lose_life_and_respawn g) := by
  refine ⟨?_, fun hpos => ?_, fun hz => ?_, fun g2 => rfl, fun g2 => rfl,
    fun e halive hov hnf => ?_, fun hfall => ?_⟩
  · unfold SS.lose_life_and_respawn
    split <;> rfl
  · unfold SS.lose_life_and_respawn
    rw [if_neg (by omega)]
    exact ⟨rfl, rfl, rfl, rfl, rfl⟩
  · unfold SS.lose_life_and_respawn
    rw [if_pos (by omega)]
  · unfold SS.enemy_contact
    rw [halive, hov]
    simp only [Bool.and_self, if_true, if_neg hnf]
  · unfold SS.fall_check
    rw [if_pos hfall]

/-- C8 witness: the death handler evaluated at a two-lives state (respawn) and
at a one-life state (game over), at concrete inputs. -/
theorem c8_death_decrements_lives_witness :
    (SS.lose_life_and_respawn SS.gTwoLives).player.lives = SS.gTwoLives.player.lives - 1 ∧
      (SS.lose_life_and_respawn SS.gTwoLives).state = SS.gTwoLives.state ∧
      (SS.lose_life_and_respawn SS.gTwoLives).player.vx = 0 ∧
      (SS.lose_life_and_respawn SS.gOneLife).state = SS.SState.game_over ∧
      SS.update_game_over (SS.lose_life_and_respawn SS.gOneLife) false =
        SS.lose_life_and_respawn SS.gOneLife ∧
      (SS.update_game_over (SS.lose_life_and_respawn SS.gOneLife) true).state =
        SS.SState.world_map :=
  ⟨(c8_death_decrements_lives SS.gTwoLives).1,
    ((c8_death_decrements_lives SS.gTwoLives).2.1 (by decide)).1,
    ((c8_death_decrements_lives SS.gTwoLives).2.1 (by decide)).2.2.2.1,
    (c8_death_decrements_lives SS.gOneLife).2.2.1 (by decide),
    (c8_death_decrements_lives SS.gOneLife).2.2.2.1 _,
    (c8_death_decrements_lives SS.gOneLife).2.2.2.2.1 _⟩

theorem max0_sub_absorb (a d : ℚ) (hd : 0 ≤ d) : max 0 (max 0 a - d) = max 0 (a - d) := by
  rcases le_total a 0 with h | h
  · have h1 : max 0 a = 0 := max_eq_left h
    have h2 : (0 : ℚ) - d ≤ 0 := by linarith
    have h3 : a - d ≤ 0 := by linarith
    rw [h1, max_eq_left h2, max_eq_left h3]
  · rw [max_eq_right h]

theorem sumDts_nonneg (ps : List (UM.UMKeys × ℚ)) (h : ∀ p ∈ ps, 0 ≤ p.2) :
    0 ≤ UM.sumDts ps := by
  unfold UM.sumDts
  induction ps with
  | nil => simp
  | cons p ps ih =>
    simp only [List.map_cons, List.sum_cons]
    have h1 := h p (List.mem_cons_self ..)
    have h2 := ih fun q hq => h q (List.mem_cons_of_mem _ hq)
    linarith

theorem sumDts_cons (p : UM.UMKeys × ℚ) (ps : List (UM.UMKeys × ℚ)) :
    UM.sumDts (p :: ps) = p.2 + UM.sumDts ps := by
  unfold UM.sumDts
  simp

theorem um_airborne_coyote (ps : List (UM.UMKeys × ℚ))
    (h : ∀ p ∈ ps, p.1.jump = false ∧ 0 ≤ p.2) :
    ∀ s : UM.UMVel, 0 ≤ s.coyote → s.onGround = false →
      (UM.airborneTicks s ps).coyote = max 0 (s.coyote - UM.sumDts ps) ∧
        (UM.airborneTicks s ps).onGround = false := by
  induction ps with
  | nil =>
    intro s hc hog
    refine ⟨?_, hog⟩
    show s.coyote = max 0 (s.coyote - UM.sumDts [])
    rw [show UM.sumDts [] = 0 from rfl, sub_zero]
    exact (max_eq_right hc).symm
  | cons p ps ih =>
    intro s hc hog
    have hj : p.1.jump = false := (h p (List.mem_cons_self ..)).1
    have hd : 0 ≤ p.2 := (h p (List.mem_cons_self ..)).2
    have hcoy : (UM.updateVelPhase p.1 { s with onGround := false } p.2).coyote
        = max 0 (s.coyote - p.2) := by
      unfold UM.updateVelPhase
      rw [if_neg (by simp [hj])]
      rfl
    have hogr : (UM.updateVelPhase p.1 { s with onGround := false } p.2).onGround = false := by
      unfold UM.updateVelPhase
      rw [if_neg (by simp [hj])]
    have hrec : UM.airborneTicks s (p :: ps)
        = UM.airborneTicks (UM.updateVelPhase p.1 { s with onGround := false } p.2) ps := rfl
    obtain ⟨h1, h2⟩ := ih (fun q hq => h q (List.mem_cons_of_mem _ hq))
      (UM.updateVelPhase p.1 { s with onGround := false } p.2)
      (by rw [hcoy]; exact le_max_left _ _) hogr
    rw [hrec, h1, hcoy, max0_sub_absorb _ _ (sumDts_nonneg ps fun q hq => (h q (List.mem_cons_of_mem _ hq)).2),
      sumDts_cons]
    refine ⟨by ring_nf, h2⟩

/-- C2: while grounded, the velocity phase refreshes the coyote timer to the
0.12-second window; if the player then stays airborne through no-jump ticks
and a jump is requested while the window has time left, the jump succeeds
(`vy = -JUMP_VELOCITY`, the timer is zeroed, `on_ground` is cleared); a jump
requested once the window has elapsed changes nothing relative to the same
tick without a jump request. -/
theorem c2_coyote_time (vx vy : ℚ) (ps : List (UM.UMKeys × ℚ))
    (hps : ∀ p ∈ ps, p.1.jump = false ∧ 0 ≤ p.2)
    (k : UM.UMKeys) (hj : k.jump = true) (dt : ℚ) (hdt : 0 ≤ dt) :
    (∀ (k0 : UM.UMKeys) (s0 : UM.UMVel) (dt0 : ℚ), s0.onGround = true → k0.jump = false →
        (UM.updateVelPhase k0 s0 dt0).coyote = UM.COYOTE_WINDOW) ∧
      (UM.sumDts ps + dt < UM.COYOTE_WINDOW →
        (UM.updateVelPhase k (UM.airborneTicks ⟨vx, vy, UM.COYOTE_WINDOW, false⟩ ps) dt).vy
            = -UM.JUMP_VELOCITY ∧
          (UM.updateVelPhase k (UM.airborneTicks ⟨vx, vy, UM.COYOTE_WINDOW, false⟩ ps) dt).coyote
            = 0 ∧
          (UM.updateVelPhase k (UM.airborneTicks ⟨vx, vy, UM.COYOTE_WINDOW, false⟩ ps) dt).onGround
            = false) ∧
      (UM.COYOTE_WINDOW ≤ UM.sumDts ps →
        (UM.airborneTicks ⟨vx, vy, UM.COYOTE_WINDOW, false⟩ ps).coyote = 0 ∧
          UM.updateVelPhase k (UM.airborneTicks ⟨vx, vy, UM.COYOTE_WINDOW, false⟩ ps) dt
            = UM.updateVelPhase { k with jump := false }
                (UM.airborneTicks ⟨vx, vy, UM.COYOTE_WINDOW, false⟩ ps) dt) := by
  obtain ⟨hcoy, hog⟩ := um_airborne_coyote ps hps ⟨vx, vy, UM.COYOTE_WINDOW, false⟩
    (by show (0 : ℚ) ≤ UM.COYOTE_WINDOW; decide) rfl
  have hSnn : 0 ≤ UM.sumDts ps := sumDts_nonneg ps fun q hq => (hps q hq).2
  have hcw : (⟨vx, vy, UM.COYOTE_WINDOW, false⟩ : UM.UMVel).coyote = UM.COYOTE_WINDOW := rfl
  rw [hcw] at hcoy
  have hca : UM.coyoteAfter (UM.airborneTicks ⟨vx, vy, UM.COYOTE_WINDOW, false⟩ ps) dt
      = max 0 ((UM.airborneTicks ⟨vx, vy, UM.COYOTE_WINDOW, false⟩ ps).coyote - dt) := by
    unfold UM.coyoteAfter
    rw [hog]
    rfl
  refine ⟨fun k0 s0 dt0 hog0 hj0 => ?_, fun hlt => ?_, fun hge => ?_⟩
  · unfold UM.updateVelPhase
    rw [if_neg (by simp [hj0])]
    show UM.coyoteAfter s0 dt0 = UM.COYOTE_WINDOW
    unfold UM.coyoteAfter
    rw [hog0]
    rfl
  · have hWS : max 0 (UM.COYOTE_WINDOW - UM.sumDts ps) = UM.COYOTE_WINDOW - UM.sumDts ps :=
      max_eq_right (by linarith)
    have hpos : 0 < UM.coyoteAfter (UM.airborneTicks ⟨vx, vy, UM.COYOTE_WINDOW, false⟩ ps) dt := by
      rw [hca, hcoy, hWS, max_eq_right (by linarith)]
      linarith
    unfold UM.updateVelPhase
    rw [if_pos ⟨hj, hpos⟩]
    exact ⟨rfl, rfl, rfl⟩
  · have hz : (UM.airborneTicks ⟨vx, vy, UM.COYOTE_WINDOW, false⟩ ps).coyote = 0 := by
      rw [hcoy]
      exact max_eq_left (by linarith)
    have hng : ¬ (0 < UM.coyoteAfter (UM.airborneTicks ⟨vx, vy, UM.COYOTE_WINDOW, false⟩ ps) dt) := by
      rw [hca, hz, max_eq_left (by linarith : (0 : ℚ) - dt ≤ 0)]
      exact lt_irrefl 0
    refine ⟨hz, ?_⟩
    unfold UM.updateVelPhase
    rw [if_neg fun hcon => hng hcon.2, if_neg fun hcon => hng hcon.2]
    rfl

/-- C2 witness: after two sixtieth-of-a-second airborne ticks a jump still
succeeds (total elapsed 0.05 s under the 0.12 s window); after one tick of
0.12 s the window is exhausted and a jump request changes nothing. -/
theorem c2_coyote_time_witness :
    (UM.updateVelPhase UM.kJump (UM.airborneTicks ⟨0, 0, UM.COYOTE_WINDOW, false⟩ UM.psShort)
        (1 / 60)).vy = -UM.JUMP_VELOCITY ∧
      (UM.airborneTicks ⟨0, 0, UM.COYOTE_WINDOW, false⟩ UM.psLong).coyote = 0 ∧
      UM.updateVelPhase UM.kJump (UM.airborneTicks ⟨0, 0, UM.COYOTE_WINDOW, false⟩ UM.psLong)
          (1 / 60)
        = UM.updateVelPhase { UM.kJump with jump := false }
            (UM.airborneTicks ⟨0, 0, UM.COYOTE_WINDOW, false⟩ UM.psLong) (1 / 60) :=
  ⟨((c2_coyote_time 0 0 UM.psShort (by decide) UM.kJump rfl (1 / 60) (by decide)).2.1
      (by decide)).1,
    ((c2_coyote_time 0 0 UM.psLong (by decide) UM.kJump rfl (1 / 60) (by decide)).2.2
      (by decide)).1,
    ((c2_coyote_time 0 0 UM.psLong (by decide) UM.kJump rfl (1 / 60) (by decide)).2.2
      (by decide)).2⟩

theorem intRange_nodup (a b : ℤ) : (intRange a b).Nodup := by
  unfold intRange
  refine List.Nodup.map ?_ (List.nodup_range _)
  intro i j h
  simp only at h
  omega

theorem mem_intRange (a b c : ℤ) : c ∈ intRange a b ↔ a ≤ c ∧ c ≤ b := by
  unfold intRange
  simp only [List.mem_map, List.mem_range]
  constructor
  · rintro ⟨i, hi, rfl⟩
    omega
  · rintro ⟨h1, h2⟩
    refine ⟨(c - a).toNat, by omega, ?_⟩
    show a + ((c - a).toNat : ℤ) = c
    omega

theorem getD_ne_default_lt {α : Type} (l : List α) (i : ℕ) (d : α) (h : l.getD i d ≠ d) :
    i < l.length := by
  by_contra hge
  push_neg at hge
  rw [List.getD_eq_getElem?_getD, List.getElem?_eq_none (by omega)] at h
  simp at h

theorem getD_set_ne {α : Type} (l : List α) (i j : ℕ) (a d : α) (hij : i ≠ j) :
    (l.set i a).getD j d = l.getD j d := by
  rw [List.getD_eq_getElem?_getD, List.getD_eq_getElem?_getD, List.getElem?_set_ne hij]

theorem getD_set_self {α : Type} (l : List α) (i : ℕ) (a d : α) (hi : i < l.length) :
    (l.set i a).getD i d = a := by
  rw [List.getD_eq_getElem?_getD, List.getElem?_set_self hi]
  rfl

theorem nodup_pairs (ys xs : List ℤ) (hys : ys.Nodup) (hxs : xs.Nodup) :
    (ys.flatMap fun cy => xs.map fun cx => ((cx, cy) : ℤ × ℤ)).Nodup := by
  induction ys with
  | nil => simp
  | cons y ys ih =>
    rw [List.flatMap_cons, List.nodup_append]
    obtain ⟨hyn, hys2⟩ := List.nodup_cons.mp hys
    refine ⟨List.Nodup.map (fun a b hab => congrArg Prod.fst hab) hxs, ih hys2, ?_⟩
    intro q hq hq2
    obtain ⟨cx, _, rfl⟩ := List.mem_map.mp hq
    obtain ⟨cy, hcy, hmem⟩ := List.mem_flatMap.mp hq2
    obtain ⟨cx2, _, heq⟩ := List.mem_map.mp hmem
    injection heq with h1 h2
    exact hyn (h2 ▸ hcy)

theorem collectCells_nodup (r : Rect) : (UM.collectCells r).Nodup := by
  simp only [UM.collectCells]
  exact nodup_pairs _ _ (intRange_nodup _ _) (intRange_nodup _ _)

theorem coinHere_facts (lvl : UM.ULevel) (c : ℤ × ℤ) (h : UM.coinHere lvl c = true) :
    (0 ≤ c.1 ∧ c.1 < (lvl.cols : ℤ) ∧ 0 ≤ c.2 ∧ c.2 < (lvl.rows : ℤ)) ∧
      c.2.toNat < lvl.map.length ∧
      c.1.toNat < (lvl.map.getD c.2.toNat []).length ∧
      mapAt lvl.map c.2 c.1 = COIN ∧ c ∈ lvl.coins := by
  unfold UM.coinHere at h
  rw [Bool.and_eq_true] at h
  obtain ⟨h1, h2⟩ := h
  have hmem : c ∈ lvl.coins := of_decide_eq_true h2
  have htile : UM.tile_at_cell lvl c.1 c.2 = COIN := eq_of_beq h1
  unfold UM.tile_at_cell at htile
  by_cases hb : 0 ≤ c.1 ∧ c.1 < (lvl.cols : ℤ) ∧ 0 ≤ c.2 ∧ c.2 < (lvl.rows : ℤ)
  · rw [if_pos hb] at htile
    have hmap := htile
    unfold mapAt at hmap
    have hin : c.1.toNat < (lvl.map.getD c.2.toNat []).length := by
      refine getD_ne_default_lt (lvl.map.getD c.2.toNat []) c.1.toNat 0 ?_
      rw [hmap]
      decide
    have hout : c.2.toNat < lvl.map.length := by
      refine getD_ne_default_lt lvl.map c.2.toNat [] ?_
      intro hemp
      rw [hemp] at hmap
      simp at hmap
      exact absurd hmap (by decide)
    exact ⟨hb, hout, hin, htile, hmem⟩
  · rw [if_neg hb] at htile
    exact absurd htile (by decide)

theorem collectStep_collects (lvl : UM.ULevel) (p : UM.UPlayer) (c : ℤ × ℤ)
    (h : UM.coinHere lvl c = true) :
    UM.collectStep (lvl, p) c
      = ({ lvl with coins := lvl.coins.erase c, map := mapSet lvl.map c.2 c.1 EMPTY },
          { p with coins := p.coins + 1, score := p.score + 100 }) := by
  unfold UM.collectStep
  rw [if_pos h]

theorem collectStep_skips (lvl : UM.ULevel) (p : UM.UPlayer) (c : ℤ × ℤ)
    (h : ¬ UM.coinHere lvl c = true) :
    UM.collectStep (lvl, p) c = (lvl, p) := by
  unfold UM.collectStep
  rw [if_neg h]

theorem tile_after_write (lvl : UM.ULevel) (c : ℤ × ℤ) (h : UM.coinHere lvl c = true) :
    UM.tile_at_cell
        { lvl with coins := lvl.coins.erase c, map := mapSet lvl.map c.2 c.1 EMPTY } c.1 c.2
      = EMPTY := by
  obtain ⟨hb, hout, hin, _, _⟩ := coinHere_facts lvl c h
  unfold UM.tile_at_cell
  show (if 0 ≤ c.1 ∧ c.1 < (lvl.cols : ℤ) ∧ 0 ≤ c.2 ∧ c.2 < (lvl.rows : ℤ)
      then mapAt (mapSet lvl.map c.2 c.1 EMPTY) c.2 c.1 else EMPTY) = EMPTY
  rw [if_pos hb]
  show ((mapSet lvl.map c.2 c.1 EMPTY).getD c.2.toNat []).getD c.1.toNat 0 = EMPTY
  unfold mapSet
  rw [getD_set_self _ _ _ _ hout, getD_set_self _ _ _ _ hin]

theorem tile_preserved (lvl : UM.ULevel) (c c2 : ℤ × ℤ) (h : UM.coinHere lvl c = true)
    (hne : c2 ≠ c) :
    UM.tile_at_cell
        { lvl with coins := lvl.coins.erase c, map := mapSet lvl.map c.2 c.1 EMPTY } c2.1 c2.2
      = UM.tile_at_cell lvl c2.1 c2.2 := by
  obtain ⟨⟨hb1, hb2, hb3, hb4⟩, hout, hin, _, _⟩ := coinHere_facts lvl c h
  unfold UM.tile_at_cell
  show (if 0 ≤ c2.1 ∧ c2.1 < (lvl.cols : ℤ) ∧ 0 ≤ c2.2 ∧ c2.2 < (lvl.rows : ℤ)
      then mapAt (mapSet lvl.map c.2 c.1 EMPTY) c2.2 c2.1 else EMPTY)
    = (if 0 ≤ c2.1 ∧ c2.1 < (lvl.cols : ℤ) ∧ 0 ≤ c2.2 ∧ c2.2 < (lvl.rows : ℤ)
      then mapAt lvl.map c2.2 c2.1 else EMPTY)
  by_cases hb : 0 ≤ c2.1 ∧ c2.1 < (lvl.cols : ℤ) ∧ 0 ≤ c2.2 ∧ c2.2 < (lvl.rows : ℤ)
  · rw [if_pos hb, if_pos hb]
    obtain ⟨hc1, hc2, hc3, hc4⟩ := hb
    show ((mapSet lvl.map c.2 c.1 EMPTY).getD c2.2.toNat []).getD c2.1.toNat 0
        = mapAt lvl.map c2.2 c2.1
    unfold mapSet mapAt
    by_cases hrow : c2.2.toNat = c.2.toNat
    · have hyeq : c2.2 = c.2 := by omega
      have hcol : c2.1 ≠ c.1 := fun hcc => hne (Prod.ext hcc hyeq)
      have hcoln : c.1.toNat ≠ c2.1.toNat := by omega
      rw [hrow, getD_set_self _ _ _ _ hout, getD_set_ne _ _ _ _ _ hcoln]
    · have hrown : c.2.toNat ≠ c2.2.toNat := fun hcc => hrow hcc.symm
      rw [getD_set_ne _ _ _ _ _ hrown]
  · rw [if_neg hb, if_neg hb]

theorem coinHere_preserved (lvl : UM.ULevel) (c c2 : ℤ × ℤ) (h : UM.coinHere lvl c = true)
    (hne : c2 ≠ c) :
    UM.coinHere
        { lvl with coins := lvl.coins.erase c, map := mapSet lvl.map c.2 c.1 EMPTY } c2
      = UM.coinHere lvl c2 := by
  unfold UM.coinHere
  rw [tile_preserved lvl c c2 h hne]
  congr 1
  exact decide_eq_decide.mpr (by simp [Finset.mem_erase, hne])

theorem collect_fold_untouched (cells : List (ℤ × ℤ)) :
    ∀ (lvl : UM.ULevel) (p : UM.UPlayer) (c2 : ℤ × ℤ), c2 ∉ cells →
      UM.tile_at_cell (cells.foldl UM.collectStep (lvl, p)).1 c2.1 c2.2
          = UM.tile_at_cell lvl c2.1 c2.2 ∧
        ((c2 ∈ (cells.foldl UM.collectStep (lvl, p)).1.coins) ↔ c2 ∈ lvl.coins) := by
  induction cells with
  | nil => exact fun lvl p c2 h => ⟨rfl, Iff.rfl⟩
  | cons c cells ih =>
    intro lvl p c2 h
    have hne : c2 ≠ c := fun hcc => h (hcc ▸ List.mem_cons_self ..)
    have hnotin : c2 ∉ cells := fun hin => h (List.mem_cons_of_mem _ hin)
    rw [List.foldl_cons]
    by_cases hch : UM.coinHere lvl c = true
    · rw [collectStep_collects lvl p c hch]
      obtain ⟨i1, i2⟩ := ih _ _ c2 hnotin
      refine ⟨i1.trans (tile_preserved lvl c c2 hch hne), i2.trans ?_⟩
      simp [Finset.mem_erase, hne]
    · rw [collectStep_skips lvl p c hch]
      exact ih _ _ c2 hnotin

theorem collect_fold_spec (cells : List (ℤ × ℤ)) :
    ∀ (lvl : UM.ULevel) (p : UM.UPlayer), cells.Nodup →
      ((cells.foldl UM.collectStep (lvl, p)).2.coins
          = p.coins + ((cells.filter (UM.coinHere lvl)).length : ℤ)) ∧
        ((cells.foldl UM.collectStep (lvl, p)).2.score
          = p.score + 100 * ((cells.filter (UM.coinHere lvl)).length : ℤ)) ∧
        (∀ c2 ∈ cells.filter (UM.coinHere lvl),
          UM.tile_at_cell (cells.foldl UM.collectStep (lvl, p)).1 c2.1 c2.2 = EMPTY ∧
            c2 ∉ (cells.foldl UM.collectStep (lvl, p)).1.coins) := by
  induction cells with
  | nil =>
    intro lvl p hnd
    exact ⟨by simp, by simp, fun c2 hc2 => absurd hc2 (by simp)⟩
  | cons c cells ih =>
    intro lvl p hnd
    obtain ⟨hcn, hnd2⟩ := List.nodup_cons.mp hnd
    rw [List.foldl_cons]
    by_cases hch : UM.coinHere lvl c = true
    · rw [collectStep_collects lvl p c hch]
      have hfc : cells.filter
            (UM.coinHere
              { lvl with coins := lvl.coins.erase c, map := mapSet lvl.map c.2 c.1 EMPTY })
          = cells.filter (UM.coinHere lvl) :=
        List.filter_congr fun c2 hc2 =>
          coinHere_preserved lvl c c2 hch (fun hcc => hcn (hcc ▸ hc2))
      obtain ⟨j1, j2, j3⟩ := ih _ _ hnd2
      rw [hfc] at j1 j2 j3
      rw [List.filter_cons_of_pos hch]
      refine ⟨?_, ?_, ?_⟩
      · rw [j1, List.length_cons]
        push_cast
        ring
      · rw [j2, List.length_cons]
        push_cast
        ring
      · intro c2 hc2
        rcases List.mem_cons.mp hc2 with hceq | hmem
        · subst hceq
          obtain ⟨u1, u2⟩ := collect_fold_untouched cells _ _ c2 hcn
          refine ⟨u1.trans (tile_after_write lvl c2 hch), fun hmem2 => ?_⟩
          exact Finset.not_mem_erase c2 lvl.coins (u2.mp hmem2)
        · exact j3 c2 hmem
    · rw [collectStep_skips lvl p c hch]
      rw [List.filter_cons_of_neg (by simpa using hch)]
      exact ih _ _ hnd2

/-- C10: collecting a coin removes its cell from the coin set, blanks its tile
to `EMPTY`, and increments the coin count by one and the score by 100 per
collected cell exactly once; re-overlapping the now-empty cell on any later
tick can never collect it again. -/
theorem c10_coin_collection_idempotent (lvl : UM.ULevel) (p : UM.UPlayer) (c : ℤ × ℤ)
    (hc : c ∈ UM.collectedCoinCells lvl p) :
    UM.tile_at_cell (UM.collect lvl p).1 c.1 c.2 = EMPTY ∧
      c ∉ (UM.collect lvl p).1.coins ∧
      (UM.collect lvl p).2.coins
        = p.coins + ((UM.collectedCoinCells lvl p).length : ℤ) ∧
      (UM.collect lvl p).2.score
        = p.score + 100 * ((UM.collectedCoinCells lvl p).length : ℤ) ∧
      0 < (UM.collectedCoinCells lvl p).length ∧
      (∀ q : UM.UPlayer, c ∉ UM.collectedCoinCells (UM.collect lvl p).1 q) := by
  have hcoll : UM.collect lvl p = (UM.collectCells p.rect).foldl UM.collectStep (lvl, p) := rfl
  have hcc : UM.collectedCoinCells lvl p
      = (UM.collectCells p.rect).filter (UM.coinHere lvl) := rfl
  obtain ⟨j1, j2, j3⟩ := collect_fold_spec (UM.collectCells p.rect) lvl p
    (collectCells_nodup p.rect)
  have hc2 : c ∈ (UM.collectCells p.rect).filter (UM.coinHere lvl) := hcc ▸ hc
  obtain ⟨ht, hm⟩ := j3 c hc2
  rw [hcoll, hcc]
  refine ⟨ht, hm, j1, j2, List.length_pos_of_mem hc2, fun q hq => ?_⟩
  have hq2 : c ∈ (UM.collectCells q.rect).filter
      (UM.coinHere ((UM.collectCells p.rect).foldl UM.collectStep (lvl, p)).1) := hq
  have hch := (List.mem_filter.mp hq2).2
  unfold UM.coinHere at hch
  rw [Bool.and_eq_true] at hch
  have heq := eq_of_beq hch.1
  rw [ht] at heq
  exact absurd heq (by decide)

/-- C10 witness: a concrete coin at cell `(0, 0)` overlapped by the player is
collected once and cannot be collected again. -/
theorem c10_coin_collection_idempotent_witness :
    UM.tile_at_cell (UM.collect UM.coinLevel UM.coinPlayer).1 0 0 = EMPTY ∧
      ((0 : ℤ), (0 : ℤ)) ∉ (UM.collect UM.coinLevel UM.coinPlayer).1.coins ∧
      (UM.collect UM.coinLevel UM.coinPlayer).2.coins = UM.coinPlayer.coins
        + ((UM.collectedCoinCells UM.coinLevel UM.coinPlayer).length : ℤ) ∧
      (∀ q : UM.UPlayer,
        ((0 : ℤ), (0 : ℤ)) ∉ UM.collectedCoinCells (UM.collect UM.coinLevel UM.coinPlayer).1 q) :=
  ⟨(c10_coin_collection_idempotent UM.coinLevel UM.coinPlayer (0, 0) (by decide)).1,
    (c10_coin_collection_idempotent UM.coinLevel UM.coinPlayer (0, 0) (by decide)).2.1,
    (c10_coin_collection_idempotent UM.coinLevel UM.coinPlayer (0, 0) (by decide)).2.2.1,
    (c10_coin_collection_idempotent UM.coinLevel UM.coinPlayer (0, 0) (by decide)).2.2.2.2.2⟩

theorem collideB_iff (a b : Rect) :
    collideB a b = true ↔ (a.x < b.x + b.w ∧ b.x < a.x + a.w ∧ a.y < b.y + b.h ∧ b.y < a.y + a.h) := by
  unfold collideB
  simp [and_assoc]

theorem fdiv20 (a : ℤ) : 20 * pydiv a 20 ≤ a ∧ a < 20 * pydiv a 20 + 20 := by
  unfold pydiv
  rw [Int.fdiv_eq_ediv a (by omega)]
  omega

theorem ceil20 (a : ℤ) : a ≤ 20 * pyceil a 20 ∧ 20 * pyceil a 20 < a + 20 := by
  unfold pyceil
  obtain ⟨h1, h2⟩ := fdiv20 (-a)
  unfold pydiv at h1 h2
  constructor <;> linarith

theorem isSolidCell_bounds (lvl : G1.Lvl) (cx cy : ℤ) (h : G1.isSolidCell lvl cx cy = true) :
    0 ≤ cx ∧ cx < (lvl.cols : ℤ) ∧ 0 ≤ cy ∧ cy < (lvl.rows : ℤ) ∧
      solidCode (mapAt lvl.map cy cx) = true := by
  unfold G1.isSolidCell at h
  simp only [Bool.and_eq_true, decide_eq_true_eq] at h
  exact ⟨h.1.1.1.1, h.1.1.1.2, h.1.1.2, h.1.2, h.2⟩

theorem solidCell_of_parts (lvl : G1.Lvl) (cx cy : ℤ) (h1 : 0 ≤ cx) (h2 : cx < (lvl.cols : ℤ))
    (h3 : 0 ≤ cy) (h4 : cy < (lvl.rows : ℤ)) (h5 : solidCode (mapAt lvl.map cy cx) = true) :
    G1.isSolidCell lvl cx cy = true := by
  unfold G1.isSolidCell
  simp only [Bool.and_eq_true, decide_eq_true_eq]
  exact ⟨⟨⟨⟨h1, h2⟩, h3⟩, h4⟩, h5⟩

theorem mem_region_elem (lvl : G1.Lvl) (x0 y0 x1 y1 : ℤ) (r : Rect)
    (hr : r ∈ G1.rects_in_region lvl x0 y0 x1 y1 solidCode) :
    ∃ cx cy : ℤ, r = cellRect cx cy ∧ G1.isSolidCell lvl cx cy = true := by
  simp only [G1.rects_in_region, List.mem_flatMap, List.mem_filterMap] at hr
  obtain ⟨cy, hcy, cx, hcx, hif⟩ := hr
  rw [mem_intRange] at hcy hcx
  by_cases hcode : solidCode (mapAt lvl.map cy cx) = true
  · rw [if_pos hcode] at hif
    injection hif with hre
    refine ⟨cx, cy, hre.symm, solidCell_of_parts lvl cx cy ?_ ?_ ?_ ?_ hcode⟩ <;> omega
  · rw [if_neg hcode] at hif
    cases hif

theorem region_covers (lvl : G1.Lvl) (x0 y0 x1 y1 cx cy : ℤ)
    (hsolid : G1.isSolidCell lvl cx cy = true)
    (h1 : x0 < 20 * cx + 20) (h2 : 20 * cx < x1) (h3 : y0 < 20 * cy + 20) (h4 : 20 * cy < y1) :
    cellRect cx cy ∈ G1.rects_in_region lvl x0 y0 x1 y1 solidCode := by
  obtain ⟨hb1, hb2, hb3, hb4, hcode⟩ := isSolidCell_bounds lvl cx cy hsolid
  simp only [G1.rects_in_region, List.mem_flatMap, List.mem_filterMap]
  obtain ⟨hx0a, hx0b⟩ := fdiv20 x0
  obtain ⟨hx1a, hx1b⟩ := ceil20 x1
  obtain ⟨hy0a, hy0b⟩ := fdiv20 y0
  obtain ⟨hy1a, hy1b⟩ := ceil20 y1
  refine ⟨cy, ?_, cx, ?_, by rw [if_pos hcode]⟩
  · rw [mem_intRange]
    omega
  · rw [mem_intRange]
    omega

theorem hstep_zero_fix (L : List Rect) (r : Rect) :
    L.foldl G1.playerHStep (r, 0) = (r, 0) := by
  induction L with
  | nil => rfl
  | cons a L ih =>
    rw [List.foldl_cons]
    have hstep : G1.playerHStep (r, 0) a = (r, 0) := by
      unfold G1.playerHStep
      split
      · norm_num
      · rfl
    rw [hstep, ih]

theorem vstep_zero_fix (L : List Rect) (r : Rect) (og : Bool) :
    L.foldl G1.playerVStep (r, 0, og) = (r, 0, og) := by
  induction L with
  | nil => rfl
  | cons a L ih =>
    rw [List.foldl_cons]
    have hstep : G1.playerVStep (r, 0, og) a = (r, 0, og) := by
      unfold G1.playerVStep
      split
      · norm_num
      · rfl
    rw [hstep, ih]

theorem hfold_nocollide (L : List Rect) (r : Rect) (v : ℚ)
    (h : ∀ a ∈ L, collideB r a = false) :
    L.foldl G1.playerHStep (r, v) = (r, v) := by
  induction L with
  | nil => rfl
  | cons a L ih =>
    rw [List.foldl_cons]
    have hstep : G1.playerHStep (r, v) a = (r, v) := by
      unfold G1.playerHStep
      rw [if_neg (by simp [h a (List.mem_cons_self ..)])]
    rw [hstep]
    exact ih fun b hb => h b (List.mem_cons_of_mem _ hb)

theorem vfold_nocollide (L : List Rect) (r : Rect) (v : ℚ) (og : Bool)
    (h : ∀ a ∈ L, collideB r a = false) :
    L.foldl G1.playerVStep (r, v, og) = (r, v, og) := by
  induction L with
  | nil => rfl
  | cons a L ih =>
    rw [List.foldl_cons]
    have hstep : G1.playerVStep (r, v, og) a = (r, v, og) := by
      unfold G1.playerVStep
      rw [if_neg (by simp [h a (List.mem_cons_self ..)])]
    rw [hstep]
    exact ih fun b hb => h b (List.mem_cons_of_mem _ hb)

theorem collideB_false (a b : Rect) (h : collideB a b = false) :
    ¬ (a.x < b.x + b.w ∧ b.x < a.x + a.w ∧ a.y < b.y + b.h ∧ b.y < a.y + a.h) :=
  fun hc => by rw [(collideB_iff a b).mpr hc] at h; cases h

theorem truncQ_nonneg (v : ℚ) (h : 0 < v) : 0 ≤ truncQ v := by
  unfold truncQ
  exact Int.tdiv_nonneg (le_of_lt (Rat.num_pos.mpr h)) (by positivity)

theorem truncQ_nonpos (v : ℚ) (h : v < 0) : truncQ v ≤ 0 := by
  unfold truncQ
  have hnum : v.num ≤ 0 := le_of_lt (Rat.num_neg.mpr h)
  have h2 : 0 ≤ (-v.num).tdiv v.den := Int.tdiv_nonneg (by omega) (by positivity)
  rw [Int.neg_tdiv] at h2
  omega

theorem hitColR_unique (lvl : G1.Lvl) (R1 : Rect) (d c1 c2 : ℤ) (hd : d ≤ 19)
    (h1 : G1.hitColR lvl R1 d c1) (h2 : G1.hitColR lvl R1 d c2) : c1 = c2 := by
  obtain ⟨_, ha1, ha2⟩ := h1
  obtain ⟨_, hb1, hb2⟩ := h2
  omega

theorem hitColL_unique (lvl : G1.Lvl) (R1 : Rect) (d c1 c2 : ℤ) (hd : -19 ≤ d)
    (h1 : G1.hitColL lvl R1 d c1) (h2 : G1.hitColL lvl R1 d c2) : c1 = c2 := by
  obtain ⟨_, ha1, ha2⟩ := h1
  obtain ⟨_, hb1, hb2⟩ := h2
  omega

theorem hitRowD_unique (lvl : G1.Lvl) (R1 : Rect) (d c1 c2 : ℤ) (hd : d ≤ 19)
    (h1 : G1.hitRowD lvl R1 d c1) (h2 : G1.hitRowD lvl R1 d c2) : c1 = c2 := by
  obtain ⟨_, ha1, ha2⟩ := h1
  obtain ⟨_, hb1, hb2⟩ := h2
  omega

theorem hitRowU_unique (lvl : G1.Lvl) (R1 : Rect) (d c1 c2 : ℤ) (hd : -19 ≤ d)
    (h1 : G1.hitRowU lvl R1 d c1) (h2 : G1.hitRowU lvl R1 d c2) : c1 = c2 := by
  obtain ⟨_, ha1, ha2⟩ := h1
  obtain ⟨_, hb1, hb2⟩ := h2
  omega

theorem hfold_right (lvl : G1.Lvl) (R0 R1 : Rect) (v : ℚ) (d : ℤ)
    (hv : 0 < v) (hd0 : 0 ≤ d) (hd19 : d ≤ 19)
    (hR : R0.x + d = R1.x ∧ R0.y = R1.y ∧ R0.w = R1.w ∧ R0.h = R1.h)
    (hfree : G1.Free lvl R0) :
    ∀ L : List Rect, (∀ r ∈ L, G1.elemOK lvl r) →
      (L.foldl G1.playerHStep (R1, v) = (R1, v) ∧ ∀ r ∈ L, collideB R1 r = false) ∨
      (∃ c : ℤ, G1.hitColR lvl R1 d c ∧
        L.foldl G1.playerHStep (R1, v) = ({ R1 with x := 20 * c - R1.w }, 0)) := by
  obtain ⟨hRx, hRy, hRw, hRh⟩ := hR
  intro L
  induction L with
  | nil => exact fun _ => Or.inl ⟨rfl, fun r hr => absurd hr (List.not_mem_nil r)⟩
  | cons a L ih =>
    intro helem
    obtain ⟨cx, cy, rfl, hsolid⟩ := helem a (List.mem_cons_self ..)
    by_cases hcol : collideB R1 (cellRect cx cy) = true
    · have hco : R1.x < 20 * cx + 20 ∧ 20 * cx < R1.x + R1.w ∧
          R1.y < 20 * cy + 20 ∧ 20 * cy < R1.y + R1.h := (collideB_iff _ _).mp hcol
      have hfr : ¬ (R0.x < 20 * cx + 20 ∧ 20 * cx < R0.x + R0.w ∧
          R0.y < 20 * cy + 20 ∧ 20 * cy < R0.y + R0.h) :=
        collideB_false R0 (cellRect cx cy) (hfree cx cy hsolid)
    -- the colliding tile is x-separated from the pre-move rect, on the right
      have hsep : R0.x + R0.w ≤ 20 * cx := by
        by_contra hlt
        exact hfr ⟨by omega, by omega, by omega, by omega⟩
      have hhit : G1.hitColR lvl R1 d cx :=
        ⟨⟨cy, hsolid, hco.2.2.1, hco.2.2.2⟩, by omega, hco.2.1⟩
      have hstep : G1.playerHStep (R1, v) (cellRect cx cy) = ({ R1 with x := 20 * cx - R1.w }, 0) := by
        unfold G1.playerHStep
        rw [if_pos hcol, if_pos hv]
        rfl
      rw [List.foldl_cons, hstep, hstep_zero_fix]
      exact Or.inr ⟨cx, hhit, rfl⟩
    · have hstep : G1.playerHStep (R1, v) (cellRect cx cy) = (R1, v) := by
        unfold G1.playerHStep
        rw [if_neg hcol]
      rw [List.foldl_cons, hstep]
      rcases ih (fun r hr => helem r (List.mem_cons_of_mem _ hr)) with ⟨heq, hall⟩ | hB
      · refine Or.inl ⟨heq, fun r hr => ?_⟩
        rcases List.mem_cons.mp hr with rfl | hr2
        · exact Bool.eq_false_iff.mpr hcol
        · exact hall r hr2
      · exact Or.inr hB

theorem hfold_left (lvl : G1.Lvl) (R0 R1 : Rect) (v : ℚ) (d : ℤ)
    (hv : v < 0) (hd0 : d ≤ 0) (hd19 : -19 ≤ d)
    (hR : R0.x + d = R1.x ∧ R0.y = R1.y ∧ R0.w = R1.w ∧ R0.h = R1.h)
    (hfree : G1.Free lvl R0) :
    ∀ L : List Rect, (∀ r ∈ L, G1.elemOK lvl r) →
      (L.foldl G1.playerHStep (R1, v) = (R1, v) ∧ ∀ r ∈ L, collideB R1 r = false) ∨
      (∃ c : ℤ, G1.hitColL lvl R1 d c ∧
        L.foldl G1.playerHStep (R1, v) = ({ R1 with x := 20 * c + 20 }, 0)) := by
  obtain ⟨hRx, hRy, hRw, hRh⟩ := hR
  intro L
  induction L with
  | nil => exact fun _ => Or.inl ⟨rfl, fun r hr => absurd hr (List.not_mem_nil r)⟩
  | cons a L ih =>
    intro helem
    obtain ⟨cx, cy, rfl, hsolid⟩ := helem a (List.mem_cons_self ..)
    by_cases hcol : collideB R1 (cellRect cx cy) = true
    · have hco : R1.x < 20 * cx + 20 ∧ 20 * cx < R1.x + R1.w ∧
          R1.y < 20 * cy + 20 ∧ 20 * cy < R1.y + R1.h := (collideB_iff _ _).mp hcol
      have hfr : ¬ (R0.x < 20 * cx + 20 ∧ 20 * cx < R0.x + R0.w ∧
          R0.y < 20 * cy + 20 ∧ 20 * cy < R0.y + R0.h) :=
        collideB_false R0 (cellRect cx cy) (hfree cx cy hsolid)
    -- the colliding tile is x-separated from the pre-move rect, on the left
      have hsep : 20 * cx + 20 ≤ R0.x := by
        by_contra hlt
        exact hfr ⟨by omega, by omega, by omega, by omega⟩
      have hhit : G1.hitColL lvl R1 d cx :=
        ⟨⟨cy, hsolid, hco.2.2.1, hco.2.2.2⟩, hco.1, by omega⟩
      have hstep : G1.playerHStep (R1, v) (cellRect cx cy) = ({ R1 with x := 20 * cx + 20 }, 0) := by
        unfold G1.playerHStep
        rw [if_pos hcol, if_neg (by exact fun hq => absurd (lt_trans hv hq) (lt_irrefl v)), if_pos hv]
        rfl
      rw [List.foldl_cons, hstep, hstep_zero_fix]
      exact Or.inr ⟨cx, hhit, rfl⟩
    · have hstep : G1.playerHStep (R1, v) (cellRect cx cy) = (R1, v) := by
        unfold G1.playerHStep
        rw [if_neg hcol]
      rw [List.foldl_cons, hstep]
      rcases ih (fun r hr => helem r (List.mem_cons_of_mem _ hr)) with ⟨heq, hall⟩ | hB
      · refine Or.inl ⟨heq, fun r hr => ?_⟩
        rcases List.mem_cons.mp hr with rfl | hr2
        · exact Bool.eq_false_iff.mpr hcol
        · exact hall r hr2
      · exact Or.inr hB

theorem vfold_down (lvl : G1.Lvl) (R0 R1 : Rect) (v : ℚ) (d : ℤ) (og : Bool)
    (hv : 0 < v) (hd0 : 0 ≤ d) (hd19 : d ≤ 19)
    (hR : R0.y + d = R1.y ∧ R0.x = R1.x ∧ R0.w = R1.w ∧ R0.h = R1.h)
    (hfree : G1.Free lvl R0) :
    ∀ L : List Rect, (∀ r ∈ L, G1.elemOK lvl r) →
      (L.foldl G1.playerVStep (R1, v, og) = (R1, v, og) ∧ ∀ r ∈ L, collideB R1 r = false) ∨
      (∃ c : ℤ, G1.hitRowD lvl R1 d c ∧
        L.foldl G1.playerVStep (R1, v, og) = ({ R1 with y := 20 * c - R1.h }, 0, true)) := by
  obtain ⟨hRy, hRx, hRw, hRh⟩ := hR
  intro L
  induction L with
  | nil => exact fun _ => Or.inl ⟨rfl, fun r hr => absurd hr (List.not_mem_nil r)⟩
  | cons a L ih =>
    intro helem
    obtain ⟨cx, cy, rfl, hsolid⟩ := helem a (List.mem_cons_self ..)
    by_cases hcol : collideB R1 (cellRect cx cy) = true
    · have hco : R1.x < 20 * cx + 20 ∧ 20 * cx < R1.x + R1.w ∧
          R1.y < 20 * cy + 20 ∧ 20 * cy < R1.y + R1.h := (collideB_iff _ _).mp hcol
      have hfr : ¬ (R0.x < 20 * cx + 20 ∧ 20 * cx < R0.x + R0.w ∧
          R0.y < 20 * cy + 20 ∧ 20 * cy < R0.y + R0.h) :=
        collideB_false R0 (cellRect cx cy) (hfree cx cy hsolid)
    -- the colliding tile is y-separated from the pre-move rect, below it
      have hsep : R0.y + R0.h ≤ 20 * cy := by
        by_contra hlt
        exact hfr ⟨by omega, by omega, by omega, by omega⟩
      have hhit : G1.hitRowD lvl R1 d cy :=
        ⟨⟨cx, hsolid, hco.1, hco.2.1⟩, by omega, hco.2.2.2⟩
      have hstep : G1.playerVStep (R1, v, og) (cellRect cx cy)
          = ({ R1 with y := 20 * cy - R1.h }, 0, true) := by
        unfold G1.playerVStep
        rw [if_pos hcol, if_pos hv]
        rfl
      rw [List.foldl_cons, hstep, vstep_zero_fix]
      exact Or.inr ⟨cy, hhit, rfl⟩
    · have hstep : G1.playerVStep (R1, v, og) (cellRect cx cy) = (R1, v, og) := by
        unfold G1.playerVStep
        rw [if_neg hcol]
      rw [List.foldl_cons, hstep]
      rcases ih (fun r hr => helem r (List.mem_cons_of_mem _ hr)) with ⟨heq, hall⟩ | hB
      · refine Or.inl ⟨heq, fun r hr => ?_⟩
        rcases List.mem_cons.mp hr with rfl | hr2
        · exact Bool.eq_false_iff.mpr hcol
        · exact hall r hr2
      · exact Or.inr hB

theorem vfold_up (lvl : G1.Lvl) (R0 R1 : Rect) (v : ℚ) (d : ℤ) (og : Bool)
    (hv : v < 0) (hd0 : d ≤ 0) (hd19 : -19 ≤ d)
    (hR : R0.y + d = R1.y ∧ R0.x = R1.x ∧ R0.w = R1.w ∧ R0.h = R1.h)
    (hfree : G1.Free lvl R0) :
    ∀ L : List Rect, (∀ r ∈ L, G1.elemOK lvl r) →
      (L.foldl G1.playerVStep (R1, v, og) = (R1, v, og) ∧ ∀ r ∈ L, collideB R1 r = false) ∨
      (∃ c : ℤ, G1.hitRowU lvl R1 d c ∧
        L.foldl G1.playerVStep (R1, v, og) = ({ R1 with y := 20 * c + 20 }, 0, og)) := by
  obtain ⟨hRy, hRx, hRw, hRh⟩ := hR
  intro L
  induction L with
  | nil => exact fun _ => Or.inl ⟨rfl, fun r hr => absurd hr (List.not_mem_nil r)⟩
  | cons a L ih =>
    intro helem
    obtain ⟨cx, cy, rfl, hsolid⟩ := helem a (List.mem_cons_self ..)
    by_cases hcol : collideB R1 (cellRect cx cy) = true
    · have hco : R1.x < 20 * cx + 20 ∧ 20 * cx < R1.x + R1.w ∧
          R1.y < 20 * cy + 20 ∧ 20 * cy < R1.y + R1.h := (collideB_iff _ _).mp hcol
      have hfr : ¬ (R0.x < 20 * cx + 20 ∧ 20 * cx < R0.x + R0.w ∧
          R0.y < 20 * cy + 20 ∧ 20 * cy < R0.y + R0.h) :=
        collideB_false R0 (cellRect cx cy) (hfree cx cy hsolid)
    -- the colliding tile is y-separated from the pre-move rect, above it
      have hsep : 20 * cy + 20 ≤ R0.y := by
        by_contra hlt
        exact hfr ⟨by omega, by omega, by omega, by omega⟩
      have hhit : G1.hitRowU lvl R1 d cy :=
        ⟨⟨cx, hsolid, hco.1, hco.2.1⟩, hco.2.2.1, by omega⟩
      have hstep : G1.playerVStep (R1, v, og) (cellRect cx cy)
          = ({ R1 with y := 20 * cy + 20 }, 0, og) := by
        unfold G1.playerVStep
        rw [if_pos hcol, if_neg (by exact fun hq => absurd (lt_trans hv hq) (lt_irrefl v)),
          if_pos hv]
        rfl
      rw [List.foldl_cons, hstep, vstep_zero_fix]
      exact Or.inr ⟨cy, hhit, rfl⟩
    · have hstep : G1.playerVStep (R1, v, og) (cellRect cx cy) = (R1, v, og) := by
        unfold G1.playerVStep
        rw [if_neg hcol]
      rw [List.foldl_cons, hstep]
      rcases ih (fun r hr => helem r (List.mem_cons_of_mem _ hr)) with ⟨heq, hall⟩ | hB
      · refine Or.inl ⟨heq, fun r hr => ?_⟩
        rcases List.mem_cons.mp hr with rfl | hr2
        · exact Bool.eq_false_iff.mpr hcol
        · exact hall r hr2
      · exact Or.inr hB

theorem free_of_nocollide (lvl : G1.Lvl) (R1 : Rect)
    (hall : ∀ r ∈ G1.rects_in_region lvl R1.x R1.y R1.right R1.bottom solidCode,
      collideB R1 r = false) :
    G1.Free lvl R1 := by
  intro cx cy hsolid
  by_contra hcol
  rw [Bool.not_eq_false] at hcol
  have hco : R1.x < 20 * cx + 20 ∧ 20 * cx < R1.x + R1.w ∧
      R1.y < 20 * cy + 20 ∧ 20 * cy < R1.y + R1.h := (collideB_iff _ _).mp hcol
  have e1 : R1.right = R1.x + R1.w := rfl
  have e2 : R1.bottom = R1.y + R1.h := rfl
  have hmem := region_covers lvl R1.x R1.y R1.right R1.bottom cx cy hsolid
    hco.1 (by omega) hco.2.2.1 (by omega)
  have hf := hall _ hmem
  rw [hcol] at hf
  cases hf

theorem freeR_after_push (lvl : G1.Lvl) (R0 R1 : Rect) (d c : ℤ) (hd0 : 0 ≤ d) (hd19 : d ≤ 19)
    (hR : R0.x + d = R1.x ∧ R0.y = R1.y ∧ R0.w = R1.w ∧ R0.h = R1.h)
    (hfree : G1.Free lvl R0) (hhit : G1.hitColR lvl R1 d c) :
    G1.Free lvl { R1 with x := 20 * c - R1.w } := by
  obtain ⟨hRx, hRy, hRw, hRh⟩ := hR
  intro cx cy hsolid
  by_contra hcol
  rw [Bool.not_eq_false] at hcol
  have hco : 20 * c - R1.w < 20 * cx + 20 ∧ 20 * cx < 20 * c - R1.w + R1.w ∧
      R1.y < 20 * cy + 20 ∧ 20 * cy < R1.y + R1.h := (collideB_iff _ _).mp hcol
  have hfr : ¬ (R0.x < 20 * cx + 20 ∧ 20 * cx < R0.x + R0.w ∧
      R0.y < 20 * cy + 20 ∧ 20 * cy < R0.y + R0.h) :=
    collideB_false R0 (cellRect cx cy) (hfree cx cy hsolid)
  obtain ⟨⟨cy0, hsol0, hy1, hy2⟩, hx1, hx2⟩ := hhit
  have hsep : R0.x + R0.w ≤ 20 * cx ∨ 20 * cx + 20 ≤ R0.x := by
    by_contra hno
    push_neg at hno
    exact hfr ⟨by omega, by omega, by omega, by omega⟩
  rcases hsep with hsepR | hsepL
  · have hhit2 : G1.hitColR lvl R1 d cx := ⟨⟨cy, hsolid, by omega, by omega⟩, by omega, by omega⟩
    have := hitColR_unique lvl R1 d cx c hd19 hhit2 ⟨⟨cy0, hsol0, hy1, hy2⟩, hx1, hx2⟩
    omega
  · omega

theorem freeL_after_push (lvl : G1.Lvl) (R0 R1 : Rect) (d c : ℤ) (hd0 : d ≤ 0) (hd19 : -19 ≤ d)
    (hR : R0.x + d = R1.x ∧ R0.y = R1.y ∧ R0.w = R1.w ∧ R0.h = R1.h)
    (hfree : G1.Free lvl R0) (hhit : G1.hitColL lvl R1 d c) :
    G1.Free lvl { R1 with x := 20 * c + 20 } := by
  obtain ⟨hRx, hRy, hRw, hRh⟩ := hR
  intro cx cy hsolid
  by_contra hcol
  rw [Bool.not_eq_false] at hcol
  have hco : 20 * c + 20 < 20 * cx + 20 ∧ 20 * cx < 20 * c + 20 + R1.w ∧
      R1.y < 20 * cy + 20 ∧ 20 * cy < R1.y + R1.h := (collideB_iff _ _).mp hcol
  have hfr : ¬ (R0.x < 20 * cx + 20 ∧ 20 * cx < R0.x + R0.w ∧
      R0.y < 20 * cy + 20 ∧ 20 * cy < R0.y + R0.h) :=
    collideB_false R0 (cellRect cx cy) (hfree cx cy hsolid)
  obtain ⟨⟨cy0, hsol0, hy1, hy2⟩, hx1, hx2⟩ := hhit
  have hsep : R0.x + R0.w ≤ 20 * cx ∨ 20 * cx + 20 ≤ R0.x := by
    by_contra hno
    push_neg at hno
    exact hfr ⟨by omega, by omega, by omega, by omega⟩
  rcases hsep with hsepR | hsepL
  · omega
  · have hhit2 : G1.hitColL lvl R1 d cx := ⟨⟨cy, hsolid, by omega, by omega⟩, by omega, by omega⟩
    have := hitColL_unique lvl R1 d cx c hd19 hhit2 ⟨⟨cy0, hsol0, hy1, hy2⟩, hx1, hx2⟩
    omega

theorem freeD_after_push (lvl : G1.Lvl) (R0 R1 : Rect) (d c : ℤ) (hd0 : 0 ≤ d) (hd19 : d ≤ 19)
    (hR : R0.y + d = R1.y ∧ R0.x = R1.x ∧ R0.w = R1.w ∧ R0.h = R1.h)
    (hfree : G1.Free lvl R0) (hhit : G1.hitRowD lvl R1 d c) :
    G1.Free lvl { R1 with y := 20 * c - R1.h } := by
  obtain ⟨hRy, hRx, hRw, hRh⟩ := hR
  intro cx cy hsolid
  by_contra hcol
  rw [Bool.not_eq_false] at hcol
  have hco : R1.x < 20 * cx + 20 ∧ 20 * cx < R1.x + R1.w ∧
      20 * c - R1.h < 20 * cy + 20 ∧ 20 * cy < 20 * c - R1.h + R1.h := (collideB_iff _ _).mp hcol
  have hfr : ¬ (R0.x < 20 * cx + 20 ∧ 20 * cx < R0.x + R0.w ∧
      R0.y < 20 * cy + 20 ∧ 20 * cy < R0.y + R0.h) :=
    collideB_false R0 (cellRect cx cy) (hfree cx cy hsolid)
  obtain ⟨⟨cx0, hsol0, hx1, hx2⟩, hy1, hy2⟩ := hhit
  have hsep : R0.y + R0.h ≤ 20 * cy ∨ 20 * cy + 20 ≤ R0.y := by
    by_contra hno
    push_neg at hno
    exact hfr ⟨by omega, by omega, by omega, by omega⟩
  rcases hsep with hsepD | hsepU
  · have hhit2 : G1.hitRowD lvl R1 d cy := ⟨⟨cx, hsolid, by omega, by omega⟩, by omega, by omega⟩
    have := hitRowD_unique lvl R1 d cy c hd19 hhit2 ⟨⟨cx0, hsol0, hx1, hx2⟩, hy1, hy2⟩
    omega
  · omega

theorem freeU_after_push (lvl : G1.Lvl) (R0 R1 : Rect) (d c : ℤ) (hd0 : d ≤ 0) (hd19 : -19 ≤ d)
    (hR : R0.y + d = R1.y ∧ R0.x = R1.x ∧ R0.w = R1.w ∧ R0.h = R1.h)
    (hfree : G1.Free lvl R0) (hhit : G1.hitRowU lvl R1 d c) :
    G1.Free lvl { R1 with y := 20 * c + 20 } := by
  obtain ⟨hRy, hRx, hRw, hRh⟩ := hR
  intro cx cy hsolid
  by_contra hcol
  rw [Bool.not_eq_false] at hcol
  have hco : R1.x < 20 * cx + 20 ∧ 20 * cx < R1.x + R1.w ∧
      20 * c + 20 < 20 * cy + 20 ∧ 20 * cy < 20 * c + 20 + R1.h := (collideB_iff _ _).mp hcol
  have hfr : ¬ (R0.x < 20 * cx + 20 ∧ 20 * cx < R0.x + R0.w ∧
      R0.y < 20 * cy + 20 ∧ 20 * cy < R0.y + R0.h) :=
    collideB_false R0 (cellRect cx cy) (hfree cx cy hsolid)
  obtain ⟨⟨cx0, hsol0, hx1, hx2⟩, hy1, hy2⟩ := hhit
  have hsep : R0.y + R0.h ≤ 20 * cy ∨ 20 * cy + 20 ≤ R0.y := by
    by_contra hno
    push_neg at hno
    exact hfr ⟨by omega, by omega, by omega, by omega⟩
  rcases hsep with hsepD | hsepU
  · omega
  · have hhit2 : G1.hitRowU lvl R1 d cy := ⟨⟨cx, hsolid, by omega, by omega⟩, by omega, by omega⟩
    have := hitRowU_unique lvl R1 d cy c hd19 hhit2 ⟨⟨cx0, hsol0, hx1, hx2⟩, hy1, hy2⟩
    omega

theorem hPhase_free (lvl : G1.Lvl) (R0 : Rect) (v : ℚ)
    (hfree : G1.Free lvl R0) (hb1 : -19 ≤ truncQ v) (hb2 : truncQ v ≤ 19) :
    G1.Free lvl (G1.hPhase lvl { R0 with x := R0.x + truncQ v } v).1 ∧
      (G1.hPhase lvl { R0 with x := R0.x + truncQ v } v).1.y = R0.y ∧
      (G1.hPhase lvl { R0 with x := R0.x + truncQ v } v).1.w = R0.w ∧
      (G1.hPhase lvl { R0 with x := R0.x + truncQ v } v).1.h = R0.h := by
  rcases lt_trichotomy v 0 with hv | hv | hv
  · have hd0 : truncQ v ≤ 0 := truncQ_nonpos v hv
    have hcase := hfold_left lvl R0 { R0 with x := R0.x + truncQ v } v (truncQ v) hv hd0 hb1
      ⟨rfl, rfl, rfl, rfl⟩ hfree
      (G1.rects_in_region lvl ({ R0 with x := R0.x + truncQ v } : Rect).x
        ({ R0 with x := R0.x + truncQ v } : Rect).y
        ({ R0 with x := R0.x + truncQ v } : Rect).right
        ({ R0 with x := R0.x + truncQ v } : Rect).bottom solidCode)
      (fun r hr => mem_region_elem lvl _ _ _ _ r hr)
    rcases hcase with ⟨heq, hall⟩ | ⟨c, hhit, heq⟩
    · have hph : G1.hPhase lvl { R0 with x := R0.x + truncQ v } v
          = ({ R0 with x := R0.x + truncQ v }, v) := heq
      rw [hph]
      exact ⟨free_of_nocollide lvl _ hall, rfl, rfl, rfl⟩
    · have hph : G1.hPhase lvl { R0 with x := R0.x + truncQ v } v
          = ({ R0 with x := 20 * c + 20 }, 0) := heq
      rw [hph]
      exact ⟨freeL_after_push lvl R0 { R0 with x := R0.x + truncQ v } (truncQ v) c hd0 hb1
        ⟨rfl, rfl, rfl, rfl⟩ hfree hhit, rfl, rfl, rfl⟩
  · subst hv
    have ht0 : truncQ 0 = 0 := rfl
    rw [ht0]
    obtain ⟨x0, y0, w0, h0⟩ := R0
    simp only [add_zero]
    have hph : G1.hPhase lvl ⟨x0, y0, w0, h0⟩ 0 = (⟨x0, y0, w0, h0⟩, 0) := hstep_zero_fix _ _
    rw [hph]
    exact ⟨hfree, rfl, rfl, rfl⟩
  · have hd0 : 0 ≤ truncQ v := truncQ_nonneg v hv
    have hcase := hfold_right lvl R0 { R0 with x := R0.x + truncQ v } v (truncQ v) hv hd0 hb2
      ⟨rfl, rfl, rfl, rfl⟩ hfree
      (G1.rects_in_region lvl ({ R0 with x := R0.x + truncQ v } : Rect).x
        ({ R0 with x := R0.x + truncQ v } : Rect).y
        ({ R0 with x := R0.x + truncQ v } : Rect).right
        ({ R0 with x := R0.x + truncQ v } : Rect).bottom solidCode)
      (fun r hr => mem_region_elem lvl _ _ _ _ r hr)
    rcases hcase with ⟨heq, hall⟩ | ⟨c, hhit, heq⟩
    · have hph : G1.hPhase lvl { R0 with x := R0.x + truncQ v } v
          = ({ R0 with x := R0.x + truncQ v }, v) := heq
      rw [hph]
      exact ⟨free_of_nocollide lvl _ hall, rfl, rfl, rfl⟩
    · have hph : G1.hPhase lvl { R0 with x := R0.x + truncQ v } v
          = ({ R0 with x := 20 * c - R0.w }, 0) := heq
      rw [hph]
      exact ⟨freeR_after_push lvl R0 { R0 with x := R0.x + truncQ v } (truncQ v) c hd0 hb2
        ⟨rfl, rfl, rfl, rfl⟩ hfree hhit, rfl, rfl, rfl⟩

theorem vPhase_free (lvl : G1.Lvl) (R0 : Rect) (v : ℚ)
    (hfree : G1.Free lvl R0) (hb1 : -19 ≤ truncQ v) (hb2 : truncQ v ≤ 19) :
    G1.Free lvl (G1.vPhase lvl { R0 with y := R0.y + truncQ v } v).1 := by
  rcases lt_trichotomy v 0 with hv | hv | hv
  · have hd0 : truncQ v ≤ 0 := truncQ_nonpos v hv
    have hcase := vfold_up lvl R0 { R0 with y := R0.y + truncQ v } v (truncQ v) false hv hd0 hb1
      ⟨rfl, rfl, rfl, rfl⟩ hfree
      (G1.rects_in_region lvl ({ R0 with y := R0.y + truncQ v } : Rect).x
        ({ R0 with y := R0.y + truncQ v } : Rect).y
        ({ R0 with y := R0.y + truncQ v } : Rect).right
        ({ R0 with y := R0.y + truncQ v } : Rect).bottom solidCode)
      (fun r hr => mem_region_elem lvl _ _ _ _ r hr)
    rcases hcase with ⟨heq, hall⟩ | ⟨c, hhit, heq⟩
    · have hph : G1.vPhase lvl { R0 with y := R0.y + truncQ v } v
          = ({ R0 with y := R0.y + truncQ v }, v, false) := heq
      rw [hph]
      exact free_of_nocollide lvl _ hall
    · have hph : G1.vPhase lvl { R0 with y := R0.y + truncQ v } v
          = ({ R0 with y := 20 * c + 20 }, 0, false) := heq
      rw [hph]
      exact freeU_after_push lvl R0 { R0 with y := R0.y + truncQ v } (truncQ v) c hd0 hb1
        ⟨rfl, rfl, rfl, rfl⟩ hfree hhit
  · subst hv
    have ht0 : truncQ 0 = 0 := rfl
    rw [ht0]
    obtain ⟨x0, y0, w0, h0⟩ := R0
    simp only [add_zero]
    have hph : G1.vPhase lvl ⟨x0, y0, w0, h0⟩ 0 = (⟨x0, y0, w0, h0⟩, 0, false) :=
      vstep_zero_fix _ _ _
    rw [hph]
    exact hfree
  · have hd0 : 0 ≤ truncQ v := truncQ_nonneg v hv
    have hcase := vfold_down lvl R0 { R0 with y := R0.y + truncQ v } v (truncQ v) false hv hd0 hb2
      ⟨rfl, rfl, rfl, rfl⟩ hfree
      (G1.rects_in_region lvl ({ R0 with y := R0.y + truncQ v } : Rect).x
        ({ R0 with y := R0.y + truncQ v } : Rect).y
        ({ R0 with y := R0.y + truncQ v } : Rect).right
        ({ R0 with y := R0.y + truncQ v } : Rect).bottom solidCode)
      (fun r hr => mem_region_elem lvl _ _ _ _ r hr)
    rcases hcase with ⟨heq, hall⟩ | ⟨c, hhit, heq⟩
    · have hph : G1.vPhase lvl { R0 with y := R0.y + truncQ v } v
          = ({ R0 with y := R0.y + truncQ v }, v, false) := heq
      rw [hph]
      exact free_of_nocollide lvl _ hall
    · have hph : G1.vPhase lvl { R0 with y := R0.y + truncQ v } v
          = ({ R0 with y := 20 * c - R0.h }, 0, true) := heq
      rw [hph]
      exact freeD_after_push lvl R0 { R0 with y := R0.y + truncQ v } (truncQ v) c hd0 hb2
        ⟨rfl, rfl, rfl, rfl⟩ hfree hhit

theorem freeCheck_sound (lvl : G1.Lvl) (r : Rect) (h : G1.freeCheck lvl r = true) :
    G1.Free lvl r := by
  intro cx cy hsolid
  obtain ⟨hb1, hb2, hb3, hb4, _⟩ := isSolidCell_bounds lvl cx cy hsolid
  unfold G1.freeCheck at h
  rw [List.all_eq_true] at h
  have h1 := h cx ((mem_intRange _ _ _).mpr ⟨hb1, by omega⟩)
  rw [List.all_eq_true] at h1
  have h2 := h1 cy ((mem_intRange _ _ _).mpr ⟨hb3, by omega⟩)
  rw [hsolid] at h2
  simpa using h2

/-- C3: from any player state whose box overlaps no solid tile and whose
per-tick displacement is under one tile on each axis — which covers every
reachable groksmb1 player state, since `vx` is clamped to `MAX_RUN = 3.2` and
`vy` lies in `[-JUMP_VELOCITY * SPRING_BOOST, MAX_FALL] = [-11.78, 10]` — the
horizontal move-and-resolve step of `move_and_collide` leaves the box
overlapping no solid tile, and so does the following vertical step. -/
theorem c3_single_axis_resolution_sound (lvl : G1.Lvl) (p : G1.PState)
    (hfree : G1.Free lvl p.rect)
    (hvx1 : -19 ≤ truncQ p.vx) (hvx2 : truncQ p.vx ≤ 19)
    (hvy1 : -19 ≤ truncQ p.vy) (hvy2 : truncQ p.vy ≤ 19) :
    G1.Free lvl (G1.hPhase lvl { p.rect with x := p.rect.x + truncQ p.vx } p.vx).1 ∧
      G1.Free lvl (G1.move_and_collide lvl p).rect := by
  obtain ⟨hfreeH, hy, hw, hh⟩ := hPhase_free lvl p.rect p.vx hfree hvx1 hvx2
  refine ⟨hfreeH, ?_⟩
  have hrect : (G1.move_and_collide lvl p).rect
      = (G1.vPhase lvl
          { (G1.hPhase lvl { p.rect with x := p.rect.x + truncQ p.vx } p.vx).1 with
              y := (G1.hPhase lvl { p.rect with x := p.rect.x + truncQ p.vx } p.vx).1.y
                + truncQ p.vy } p.vy).1 := rfl
  rw [hrect]
  exact vPhase_free lvl (G1.hPhase lvl { p.rect with x := p.rect.x + truncQ p.vx } p.vx).1
    p.vy hfreeH hvy1 hvy2

/-- C3 witness: a concrete free player over the two-tile dirt floor stays free
after both resolution steps of `move_and_collide`. -/
theorem c3_single_axis_resolution_sound_witness :
    G1.Free G1.stepLevel
        (G1.hPhase G1.stepLevel
          { G1.stepPlayer.rect with x := G1.stepPlayer.rect.x + truncQ G1.stepPlayer.vx }
          G1.stepPlayer.vx).1 ∧
      G1.Free G1.stepLevel (G1.move_and_collide G1.stepLevel G1.stepPlayer).rect :=
  c3_single_axis_resolution_sound G1.stepLevel G1.stepPlayer
    (freeCheck_sound G1.stepLevel G1.stepPlayer.rect (by decide))
    (by decide) (by decide) (by decide) (by decide)

theorem enemyWallFold_inv (L : List Rect) (s : Rect × ℚ) :
    (L.foldl G1.enemyWallStep s).1.y = s.1.y ∧
      (L.foldl G1.enemyWallStep s).1.h = s.1.h ∧
      ((L.foldl G1.enemyWallStep s).2 = s.2 ∨ (L.foldl G1.enemyWallStep s).2 = -s.2) := by
  induction L generalizing s with
  | nil => exact ⟨rfl, rfl, Or.inl rfl⟩
  | cons a L ih =>
    have hstep : (G1.enemyWallStep s a).1.y = s.1.y ∧ (G1.enemyWallStep s a).1.h = s.1.h ∧
        ((G1.enemyWallStep s a).2 = s.2 ∨ (G1.enemyWallStep s a).2 = -s.2) := by
      unfold G1.enemyWallStep
      split
      · refine ⟨?_, ?_, Or.inr rfl⟩ <;> (split <;> rfl)
      · exact ⟨rfl, rfl, Or.inl rfl⟩
    rw [List.foldl_cons]
    obtain ⟨h1, h2, h3⟩ := ih (G1.enemyWallStep s a)
    refine ⟨h1.trans hstep.1, h2.trans hstep.2.1, ?_⟩
    rcases h3 with h3 | h3 <;> rcases hstep.2.2 with h4 | h4
    · exact Or.inl (h3.trans h4)
    · exact Or.inr (h3.trans h4)
    · exact Or.inr (h3.trans (by rw [h4]))
    · exact Or.inl (h3.trans (by rw [h4, neg_neg]))

/-- C9 (amended): in groksmb1, the enemy patrol update never changes the
enemy's vertical position or height — the enemy moves horizontally by its
truncated signed speed with wall pushes, and its walk velocity is either kept
or exactly negated (wall bounce or ledge probe), never altered by gravity.
The samsoft variant, by contrast, applies gravity to enemies
(`c9_samsoft_enemy_falls`). -/
theorem c9_grok_enemy_no_gravity (lvl : G1.Lvl) (e : G1.GEnemy) :
    (G1.enemyUpdate lvl e).rect.y = e.rect.y ∧
      (G1.enemyUpdate lvl e).rect.h = e.rect.h ∧
      ((G1.enemyUpdate lvl e).vx = e.vx ∨ (G1.enemyUpdate lvl e).vx = -e.vx) := by
  have hcase : ∃ s : Rect × ℚ, ((G1.enemyUpdate lvl e).rect = s.1 ∧
        ((G1.enemyUpdate lvl e).vx = s.2 ∨ (G1.enemyUpdate lvl e).vx = -s.2)) ∧
      s.1.y = e.rect.y ∧ s.1.h = e.rect.h ∧ (s.2 = e.vx ∨ s.2 = -e.vx) := by
    refine ⟨(G1.rects_in_region lvl ({ e.rect with x := e.rect.x + truncQ e.vx } : Rect).x
        ({ e.rect with x := e.rect.x + truncQ e.vx } : Rect).y
        ({ e.rect with x := e.rect.x + truncQ e.vx } : Rect).right
        ({ e.rect with x := e.rect.x + truncQ e.vx } : Rect).bottom solidCode).foldl
        G1.enemyWallStep ({ e.rect with x := e.rect.x + truncQ e.vx }, e.vx), ⟨?_, ?_⟩, ?_⟩
    · simp only [G1.enemyUpdate]
      split <;> split <;> rfl
    · simp only [G1.enemyUpdate]
      split <;> split <;> first | exact Or.inl rfl | exact Or.inr rfl
    · exact enemyWallFold_inv _ _
  obtain ⟨s, ⟨hr, hv⟩, hy, hh, hvx⟩ := hcase
  refine ⟨by rw [hr]; exact hy, by rw [hr]; exact hh, ?_⟩
  rcases hv with hv | hv <;> rcases hvx with h2 | h2
  · exact Or.inl (hv.trans h2)
  · exact Or.inr (hv.trans h2)
  · rw [hv, h2]
    exact Or.inr rfl
  · rw [hv, h2, neg_neg]
    exact Or.inl rfl

theorem getD_replicate {α : Type} (n i : ℕ) (a d : α) :
    (List.replicate n a).getD i d = if i < n then a else d := by
  rw [List.getD_eq_getElem?_getD, List.getElem?_replicate]
  split <;> rfl

theorem getD_set_cases {α : Type} (l : List α) (i x : ℕ) (a d : α) :
    (l.set i a).getD x d = l.getD x d ∨ (l.set i a).getD x d = a := by
  by_cases hix : i = x
  · subst hix
    by_cases hlen : i < l.length
    · exact Or.inr (getD_set_self l i a d hlen)
    · rw [List.set_eq_of_length_le (by omega)]
      exact Or.inl rfl
  · exact Or.inl (getD_set_ne l i x a d hix)

theorem getD_mem {α : Type} (l : List α) (i : ℕ) (d : α) (h : i < l.length) :
    l.getD i d ∈ l := by
  rw [List.getD_eq_getElem?_getD, List.getElem?_eq_getElem h]
  exact List.getElem_mem h

theorem mapAt_congr (m : List (List ℕ)) (cy cx y x : ℤ) (hy : y.toNat = cy.toNat)
    (hx : x.toNat = cx.toNat) : mapAt m y x = mapAt m cy cx := by
  unfold mapAt
  rw [hy, hx]

theorem mapAt_set_cases (m : List (List ℕ)) (cy cx y x : ℤ) (v : ℕ) :
    mapAt (mapSet m cy cx v) y x = mapAt m y x ∨ mapAt (mapSet m cy cx v) y x = v := by
  unfold mapAt mapSet
  by_cases hy : cy.toNat = y.toNat
  · rw [← hy]
    by_cases hrow : cy.toNat < m.length
    · rw [getD_set_self m cy.toNat _ [] hrow]
      exact getD_set_cases _ _ _ _ _
    · rw [List.set_eq_of_length_le (by omega)]
      exact Or.inl rfl
  · rw [getD_set_ne m cy.toNat y.toNat _ [] hy]
    exact Or.inl rfl

theorem mapAt_set_ne (m : List (List ℕ)) (cy cx y x : ℤ) (v : ℕ)
    (h : ¬(y.toNat = cy.toNat ∧ x.toNat = cx.toNat)) :
    mapAt (mapSet m cy cx v) y x = mapAt m y x := by
  unfold mapAt mapSet
  by_cases hy : cy.toNat = y.toNat
  · have hx : x.toNat ≠ cx.toNat := fun hc => h ⟨hy.symm, hc⟩
    rw [← hy]
    by_cases hrow : cy.toNat < m.length
    · rw [getD_set_self m cy.toNat _ [] hrow]
      exact getD_set_ne _ _ _ _ _ (fun hc => hx hc.symm)
    · rw [List.set_eq_of_length_le (by omega)]
  · rw [getD_set_ne m cy.toNat y.toNat _ [] hy]

theorem WF_mapSet (cols : ℕ) (m : List (List ℕ)) (cy cx : ℤ) (v : ℕ)
    (hwf : G1.WF cols m) : G1.WF cols (mapSet m cy cx v) := by
  obtain ⟨hlen, hrows⟩ := hwf
  by_cases hrow : cy.toNat < m.length
  · refine ⟨by rw [show mapSet m cy cx v = m.set cy.toNat ((m.getD cy.toNat []).set cx.toNat v)
      from rfl, List.length_set]; exact hlen, ?_⟩
    intro r hr
    rcases List.mem_or_eq_of_mem_set hr with hmem | heq
    · exact hrows r hmem
    · rw [heq, List.length_set]
      exact hrows _ (getD_mem m cy.toNat [] hrow)
  · show G1.WF cols (m.set cy.toNat _)
    rw [List.set_eq_of_length_le (by omega)]
    exact ⟨hlen, hrows⟩

theorem mapAt_set_self (cols : ℕ) (m : List (List ℕ)) (cy cx : ℤ) (v : ℕ)
    (hwf : G1.WF cols m) (hy0 : 0 ≤ cy) (hy1 : cy < 20) (hx0 : 0 ≤ cx)
    (hx1 : cx < (cols : ℤ)) : mapAt (mapSet m cy cx v) cy cx = v := by
  obtain ⟨hlen, hrows⟩ := hwf
  have hrow : cy.toNat < m.length := by
    rw [hlen]; show cy.toNat < 20; omega
  unfold mapAt mapSet
  rw [getD_set_self m cy.toNat _ [] hrow]
  have hxlen : cx.toNat < (m.getD cy.toNat []).length := by
    rw [hrows _ (getD_mem m cy.toNat [] hrow)]
    omega
  exact getD_set_self _ _ _ _ hxlen

theorem mapAt_empty (cols : ℕ) (y x : ℤ) :
    mapAt (List.replicate G1.ROWS (List.replicate cols EMPTY)) y x = EMPTY := by
  unfold mapAt
  rw [getD_replicate]
  split
  · rw [getD_replicate]
    split <;> rfl
  · rfl

theorem WF_empty (cols : ℕ) : G1.WF cols (List.replicate G1.ROWS (List.replicate cols EMPTY)) := by
  refine ⟨List.length_replicate _ _, ?_⟩
  intro r hr
  rw [List.eq_of_mem_replicate hr]
  exact List.length_replicate _ _

theorem clampZ_mem (v lo hi : ℤ) (h : lo ≤ hi) :
    lo ≤ clampZ v lo hi ∧ clampZ v lo hi ≤ hi := by
  unfold clampZ
  split
  · omega
  · split <;> omega

theorem pitWrite_inv (cols : ℕ) (x : ℕ)
    (P : ℤ → Prop) (hP20 : P 20) : ∀ (L : List ℕ) (gr : List ℤ),
    (∀ y, P (gr.getD y 20)) →
    ∀ y, P ((L.foldl (fun g2 i => if x + i < cols then g2.set (x + i) 20 else g2) gr).getD y 20) := by
  intro L
  induction L with
  | nil => intro gr h y; exact h y
  | cons a L ih =>
    intro gr h y
    rw [List.foldl_cons]
    refine ih _ ?_ y
    intro z
    split
    · rcases getD_set_cases gr (x + a) z 20 20 with hc | hc
      · rw [hc]; exact h z
      · rw [hc]; exact hP20
    · exact h z

theorem groundFold_inv (cols index : ℕ) (o : G1.Oracle) :
    ∀ (L : List ℕ) (s : List ℤ × ℤ × ℕ),
      (∀ y, (10 ≤ s.1.getD y 20 ∧ s.1.getD y 20 ≤ 17) ∨ s.1.getD y 20 = 20) →
      10 ≤ s.2.1 → s.2.1 ≤ 17 →
      (∀ y, (10 ≤ (L.foldl (G1.groundStep cols index o) s).1.getD y 20 ∧
          (L.foldl (G1.groundStep cols index o) s).1.getD y 20 ≤ 17) ∨
        (L.foldl (G1.groundStep cols index o) s).1.getD y 20 = 20) ∧
      10 ≤ (L.foldl (G1.groundStep cols index o) s).2.1 ∧
      (L.foldl (G1.groundStep cols index o) s).2.1 ≤ 17 := by
  intro L
  induction L with
  | nil => intro s h1 h2 h3; exact ⟨h1, h2, h3⟩
  | cons a L ih =>
    intro s h1 h2 h3
    rw [List.foldl_cons]
    have hstep : (∀ y, (10 ≤ (G1.groundStep cols index o s a).1.getD y 20 ∧
          (G1.groundStep cols index o s a).1.getD y 20 ≤ 17) ∨
        (G1.groundStep cols index o s a).1.getD y 20 = 20) ∧
        10 ≤ (G1.groundStep cols index o s a).2.1 ∧
        (G1.groundStep cols index o s a).2.1 ≤ 17 := by
      unfold G1.groundStep
      split
      · refine ⟨?_, h2, h3⟩
        intro y
        exact pitWrite_inv cols a (fun v => (10 ≤ v ∧ v ≤ 17) ∨ v = 20) (Or.inr rfl) _ s.1 h1 y
      · split
        · have hcl := clampZ_mem (s.2.1 + G1.driftChoice o (s.2.2 + 2)) 10 17 (by omega)
          refine ⟨?_, hcl.1, hcl.2⟩
          intro y
          rcases getD_set_cases s.1 a y (clampZ (s.2.1 + G1.driftChoice o (s.2.2 + 2)) 10 17)
              20 with hc | hc
          · rw [hc]; exact h1 y
          · rw [hc]; exact Or.inl hcl
        · refine ⟨?_, h2, h3⟩
          intro y
          rcases getD_set_cases s.1 a y s.2.1 20 with hc | hc
          · rw [hc]; exact h1 y
          · rw [hc]; exact Or.inl ⟨h2, h3⟩
    exact ih _ hstep.1 hstep.2.1 hstep.2.2

theorem ground_mem (index : ℕ) (o : G1.Oracle) (y : ℕ) :
    (10 ≤ (G1.groundOf index o).getD y 20 ∧ (G1.groundOf index o).getD y 20 ≤ 17) ∨
      (G1.groundOf index o).getD y 20 = 20 := by
  have hmod : 0 ≤ (o.ints 0 : ℤ) % 5 ∧ (o.ints 0 : ℤ) % 5 < 5 :=
    ⟨Int.emod_nonneg _ (by omega), Int.emod_lt_of_pos _ (by omega)⟩
  have h := groundFold_inv (G1.colsOf index) index o (List.range (G1.colsOf index))
    (List.replicate (G1.colsOf index) 14, 12 + (o.ints 0 : ℤ) % 5, 1)
    (by
      intro z
      show (10 ≤ (List.replicate (G1.colsOf index) (14 : ℤ)).getD z 20 ∧ _ ≤ 17) ∨ _ = 20
      rw [getD_replicate]
      split
      · exact Or.inl (by omega)
      · exact Or.inr rfl)
    (by show 10 ≤ 12 + (o.ints 0 : ℤ) % 5; omega)
    (by show 12 + (o.ints 0 : ℤ) % 5 ≤ 17; omega)
  exact h.1 y

theorem spawnScan_finds (gr : List ℤ) (cols : ℕ) :
    ∀ (fuel sx x0 : ℕ), sx ≤ x0 → x0 ≤ sx + fuel → x0 < cols - 1 → gr.getD x0 20 < 20 →
      sx ≤ G1.spawnScan gr cols fuel sx ∧ G1.spawnScan gr cols fuel sx ≤ x0 ∧
        gr.getD (G1.spawnScan gr cols fuel sx) 20 < 20 := by
  intro fuel
  induction fuel with
  | zero =>
    intro sx x0 h1 h2 h3 h4
    have hx : x0 = sx := by omega
    subst hx
    exact ⟨le_refl _, le_refl _, h4⟩
  | succ fuel ih =>
    intro sx x0 h1 h2 h3 h4
    have hun : G1.spawnScan gr cols (fuel + 1) sx
        = if sx < cols - 1 ∧ gr.getD sx 20 ≥ 20 then G1.spawnScan gr cols fuel (sx + 1)
          else sx := rfl
    by_cases hc : sx < cols - 1 ∧ gr.getD sx 20 ≥ 20
    · rw [hun, if_pos hc]
      have hne : sx ≠ x0 := by
        intro he
        rw [he] at hc
        omega
      have := ih (sx + 1) x0 (by omega) (by omega) h3 h4
      exact ⟨by omega, this.2.1, this.2.2⟩
    · rw [hun, if_neg hc]
      push_neg at hc
      refine ⟨le_refl _, h1, ?_⟩
      by_cases hlt : sx < cols - 1
      · have := hc hlt
        omega
      · omega

theorem exitScan_spec (gr : List ℤ) (cols : ℕ) :
    ∀ (fuel gx : ℕ), cols - 12 ≤ gx → gx ≤ cols - 12 + fuel →
      cols - 12 ≤ G1.exitScan gr cols fuel gx ∧ G1.exitScan gr cols fuel gx ≤ gx ∧
        (∀ t : ℕ, G1.exitScan gr cols fuel gx < t → t ≤ gx → gr.getD t 20 ≥ 20) ∧
        (G1.exitScan gr cols fuel gx = cols - 12 ∨
          gr.getD (G1.exitScan gr cols fuel gx) 20 < 20) := by
  intro fuel
  induction fuel with
  | zero =>
    intro gx h1 h2
    have hx : gx = cols - 12 := by omega
    subst hx
    exact ⟨le_refl _, le_refl _, fun t ht1 ht2 => absurd (lt_of_lt_of_le ht1 ht2)
      (lt_irrefl _), Or.inl rfl⟩
  | succ fuel ih =>
    intro gx h1 h2
    have hun : G1.exitScan gr cols (fuel + 1) gx
        = if gx > cols - 12 ∧ gr.getD gx 20 ≥ 20 then G1.exitScan gr cols fuel (gx - 1)
          else gx := rfl
    by_cases hc : gx > cols - 12 ∧ gr.getD gx 20 ≥ 20
    · rw [hun, if_pos hc]
      have := ih (gx - 1) (by omega) (by omega)
      refine ⟨this.1, by omega, ?_, this.2.2.2⟩
      intro t ht1 ht2
      by_cases hts : t ≤ gx - 1
      · exact this.2.2.1 t ht1 hts
      · have : t = gx := by omega
        rw [this]
        exact hc.2
    · rw [hun, if_neg hc]
      push_neg at hc
      refine ⟨h1, le_refl _, fun t ht1 ht2 => absurd (lt_of_lt_of_le ht1 ht2)
        (lt_irrefl _), ?_⟩
      by_cases hgt : gx > cols - 12
      · exact Or.inr (hc hgt)
      · exact Or.inl (by omega)

theorem colsOf_ge (index : ℕ) : 60 ≤ G1.colsOf index ∧ G1.colsOf index ≤ 120 := by
  unfold G1.colsOf
  omega

theorem mapAt_foldl_mapSet_ne (row colf : ℕ → ℤ) (v : ℕ → ℕ) (y x : ℤ) :
    ∀ (L : List ℕ) (m : List (List ℕ)),
      (∀ i ∈ L, ¬(y.toNat = (row i).toNat ∧ x.toNat = (colf i).toNat)) →
      mapAt (L.foldl (fun m2 i => mapSet m2 (row i) (colf i) (v i)) m) y x = mapAt m y x := by
  intro L
  induction L with
  | nil => intro m _; rfl
  | cons a L ih =>
    intro m h
    rw [List.foldl_cons]
    rw [ih _ (fun i hi => h i (List.mem_cons_of_mem a hi))]
    exact mapAt_set_ne m (row a) (colf a) y x (v a) (h a (List.mem_cons_self a L))

theorem WF_foldl_mapSet (cols : ℕ) (row colf : ℕ → ℤ) (v : ℕ → ℕ) :
    ∀ (L : List ℕ) (m : List (List ℕ)), G1.WF cols m →
      G1.WF cols (L.foldl (fun m2 i => mapSet m2 (row i) (colf i) (v i)) m) := by
  intro L
  induction L with
  | nil => intro m h; exact h
  | cons a L ih =>
    intro m h
    rw [List.foldl_cons]
    exact ih _ (WF_mapSet cols m (row a) (colf a) (v a) h)

theorem WF_terrainCol (cols : ℕ) (gr : List ℤ) (m : List (List ℕ)) (c : ℕ)
    (hwf : G1.WF cols m) : G1.WF cols (G1.terrainCol gr m c) := by
  unfold G1.terrainCol
  split
  · exact hwf
  · exact WF_foldl_mapSet cols (fun i => gr.getD c 20 + 1 + (i : ℕ)) (fun _ => (c : ℤ))
      (fun _ => DIRT) _ _ (WF_mapSet cols m (gr.getD c 20) c GRASS hwf)

theorem terrainCol_ne (gr : List ℤ) (m : List (List ℕ)) (c : ℕ) (y x : ℤ)
    (hx : x.toNat ≠ c) : mapAt (G1.terrainCol gr m c) y x = mapAt m y x := by
  unfold G1.terrainCol
  split
  · rfl
  · refine (mapAt_foldl_mapSet_ne (fun i => gr.getD c 20 + 1 + (i : ℕ)) (fun _ => (c : ℤ))
      (fun _ => DIRT) y x _ _ ?_).trans
      (mapAt_set_ne m (gr.getD c 20) c y x GRASS ?_)
    · intro i _ hcon
      exact hx (by simpa using hcon.2)
    · intro hcon
      exact hx (by simpa using hcon.2)

theorem terrainCol_grass (cols : ℕ) (gr : List ℤ) (m : List (List ℕ)) (c : ℕ)
    (hwf : G1.WF cols m) (hc : c < cols) (h1 : 10 ≤ gr.getD c 20) (h2 : gr.getD c 20 < 20) :
    mapAt (G1.terrainCol gr m c) (gr.getD c 20) c = GRASS := by
  unfold G1.terrainCol
  rw [if_neg (by omega : ¬(gr.getD c 20 ≥ 20))]
  refine (mapAt_foldl_mapSet_ne (fun i => gr.getD c 20 + 1 + (i : ℕ)) (fun _ => (c : ℤ))
      (fun _ => DIRT) _ _ _ _ ?_).trans
    (mapAt_set_self cols m (gr.getD c 20) c GRASS hwf (by omega) (by omega) (by omega)
      (by omega))
  intro i _ hcon
  simp only at hcon
  exact absurd hcon.1 (by omega)

theorem terrainCol_above (gr : List ℤ) (m : List (List ℕ)) (c : ℕ) (y : ℤ)
    (hy : 0 ≤ y) (hlt : y < gr.getD c 20) :
    mapAt (G1.terrainCol gr m c) y c = mapAt m y c := by
  unfold G1.terrainCol
  split
  · rfl
  · refine (mapAt_foldl_mapSet_ne (fun i => gr.getD c 20 + 1 + (i : ℕ)) (fun _ => (c : ℤ))
      (fun _ => DIRT) y c _ _ ?_).trans
      (mapAt_set_ne m (gr.getD c 20) c y c GRASS ?_)
    · intro i _ hcon
      simp only at hcon
      exact absurd hcon.1 (by omega)
    · intro hcon
      exact absurd hcon.1 (by omega)

theorem WF_terrain_fold (cols : ℕ) (gr : List ℤ) :
    ∀ (L : List ℕ) (m : List (List ℕ)), G1.WF cols m →
      G1.WF cols (L.foldl (G1.terrainCol gr) m) := by
  intro L
  induction L with
  | nil => intro m h; exact h
  | cons a L ih =>
    intro m h
    rw [List.foldl_cons]
    exact ih _ (WF_terrainCol cols gr m a h)

theorem WF_layTerrain (cols : ℕ) (gr : List ℤ) : G1.WF cols (G1.layTerrain cols gr) :=
  WF_terrain_fold cols gr _ _ (WF_empty cols)

theorem terrain_fold_above (gr : List ℤ) (s : ℕ) (y : ℤ) (hy : 0 ≤ y)
    (hlt : y < gr.getD s 20) :
    ∀ (L : List ℕ) (m : List (List ℕ)),
      mapAt (L.foldl (G1.terrainCol gr) m) y s = mapAt m y s := by
  intro L
  induction L with
  | nil => intro m; rfl
  | cons a L ih =>
    intro m
    rw [List.foldl_cons, ih]
    by_cases has : a = s
    · subst has
      exact terrainCol_above gr m a y hy hlt
    · exact terrainCol_ne gr m a y s (by omega)

theorem layTerrain_above (cols : ℕ) (gr : List ℤ) (s : ℕ) (y : ℤ) (hy : 0 ≤ y)
    (hlt : y < gr.getD s 20) : mapAt (G1.layTerrain cols gr) y s = EMPTY :=
  (terrain_fold_above gr s y hy hlt _ _).trans (mapAt_empty cols y s)

theorem terrain_range_grass (cols : ℕ) (gr : List ℤ) (s : ℕ) (hc : s < cols)
    (h1 : 10 ≤ gr.getD s 20) (h2 : gr.getD s 20 < 20) :
    ∀ (n : ℕ) (m : List (List ℕ)), G1.WF cols m → s < n →
      mapAt ((List.range n).foldl (G1.terrainCol gr) m) (gr.getD s 20) s = GRASS := by
  intro n
  induction n with
  | zero => intro m _ h; omega
  | succ n ih =>
    intro m hwf hsn
    rw [List.range_succ, List.foldl_append]
    show mapAt (G1.terrainCol gr ((List.range n).foldl (G1.terrainCol gr) m) n)
      (gr.getD s 20) s = GRASS
    by_cases hlt : s < n
    · rw [terrainCol_ne gr _ n (gr.getD s 20) s (by omega)]
      exact ih m hwf hlt
    · have hns : n = s := by omega
      subst hns
      exact terrainCol_grass cols gr _ n (WF_terrain_fold cols gr _ m hwf) hc h1 h2

theorem layTerrain_grass (cols : ℕ) (gr : List ℤ) (s : ℕ) (hc : s < cols)
    (h1 : 10 ≤ gr.getD s 20) (h2 : gr.getD s 20 < 20) :
    mapAt (G1.layTerrain cols gr) (gr.getD s 20) s = GRASS :=
  terrain_range_grass cols gr s hc h1 h2 cols _ (WF_empty cols) hc

theorem fold_pres_proj {σ : Type} (f : σ → ℕ → σ) (proj : σ → List (List ℕ)) (y x : ℤ)
    (P : ℕ → Prop) :
    ∀ L : List ℕ,
      (∀ s, ∀ i ∈ L, P (mapAt (proj s) y x) →
        mapAt (proj (f s i)) y x = mapAt (proj s) y x) →
      ∀ s, P (mapAt (proj s) y x) →
        mapAt (proj (L.foldl f s)) y x = mapAt (proj s) y x := by
  intro L
  induction L with
  | nil => intro _ s _; rfl
  | cons a L ih =>
    intro hf s hP
    rw [List.foldl_cons]
    have h1 := hf s a (List.mem_cons_self a L) hP
    refine (ih (fun s2 i hi => hf s2 i (List.mem_cons_of_mem a hi)) (f s a) ?_).trans h1
    rw [h1]
    exact hP

theorem fold_cases_proj {σ : Type} (f : σ → ℕ → σ) (proj : σ → List (List ℕ)) (y x : ℤ)
    (v : ℕ)
    (hf : ∀ s i, mapAt (proj (f s i)) y x = mapAt (proj s) y x ∨
      mapAt (proj (f s i)) y x = v) :
    ∀ (L : List ℕ) (s), mapAt (proj (L.foldl f s)) y x = mapAt (proj s) y x ∨
      mapAt (proj (L.foldl f s)) y x = v := by
  intro L
  induction L with
  | nil => intro s; exact Or.inl rfl
  | cons a L ih =>
    intro s
    rw [List.foldl_cons]
    rcases ih (f s a) with hih | hih
    · rcases hf s a with h1 | h1
      · exact Or.inl (hih.trans h1)
      · exact Or.inr (hih.trans h1)
    · exact Or.inr hih

theorem fold_WF_proj {σ : Type} (cols : ℕ) (f : σ → ℕ → σ) (proj : σ → List (List ℕ))
    (hf : ∀ s i, G1.WF cols (proj s) → G1.WF cols (proj (f s i))) :
    ∀ (L : List ℕ) (s), G1.WF cols (proj s) → G1.WF cols (proj (L.foldl f s)) := by
  intro L
  induction L with
  | nil => intro s h; exact h
  | cons a L ih =>
    intro s h
    rw [List.foldl_cons]
    exact ih (f s a) (hf s a h)

theorem platWrite_pres (cols : ℕ) (hrow : ℤ) (xx w : ℕ) (m : List (List ℕ)) (y x : ℤ)
    (hne : mapAt m y x ≠ EMPTY) : mapAt (G1.platWrite cols hrow xx w m) y x = mapAt m y x := by
  unfold G1.platWrite
  refine fold_pres_proj _ (fun m2 => m2) y x (fun t => t ≠ EMPTY) (List.range w) ?_ m hne
  intro s i _ hP
  dsimp only
  split
  · rename_i hg
    by_cases hcell : y.toNat = hrow.toNat ∧
        x.toNat = (clampZ ((xx + i : ℕ) : ℤ) 0 ((cols : ℤ) - 1)).toNat
    · exact absurd ((mapAt_congr s hrow _ y x hcell.1 hcell.2).trans (eq_of_beq hg)) hP
    · exact mapAt_set_ne s hrow _ y x PLATFORM hcell
  · rfl

theorem platWrite_cases (cols : ℕ) (hrow : ℤ) (xx w : ℕ) (m : List (List ℕ)) (y x : ℤ) :
    mapAt (G1.platWrite cols hrow xx w m) y x = mapAt m y x ∨
      mapAt (G1.platWrite cols hrow xx w m) y x = PLATFORM := by
  unfold G1.platWrite
  refine fold_cases_proj _ (fun m2 => m2) y x PLATFORM ?_ (List.range w) m
  intro s i
  dsimp only
  split
  · exact mapAt_set_cases s hrow _ y x PLATFORM
  · exact Or.inl rfl

theorem WF_platWrite (cols2 cols : ℕ) (hrow : ℤ) (xx w : ℕ) (m : List (List ℕ))
    (hwf : G1.WF cols2 m) : G1.WF cols2 (G1.platWrite cols hrow xx w m) := by
  unfold G1.platWrite
  refine fold_WF_proj cols2 _ (fun m2 => m2) ?_ (List.range w) m hwf
  intro s i h
  dsimp only
  split
  · exact WF_mapSet cols2 s hrow _ PLATFORM h
  · exact h

theorem platStep_pres (cols index : ℕ) (o : G1.Oracle) (gr : List ℤ) (y x : ℤ)
    (s : List (List ℕ) × ℕ) (i : ℕ) (hP : mapAt s.1 y x ≠ EMPTY) :
    mapAt (G1.platStep cols index o gr s i).1 y x = mapAt s.1 y x := by
  unfold G1.platStep
  split
  · rfl
  · split
    · exact platWrite_pres cols _ i _ s.1 y x hP
    · rfl

theorem platStep_cases (cols index : ℕ) (o : G1.Oracle) (gr : List ℤ) (y x : ℤ)
    (s : List (List ℕ) × ℕ) (i : ℕ) :
    mapAt (G1.platStep cols index o gr s i).1 y x = mapAt s.1 y x ∨
      mapAt (G1.platStep cols index o gr s i).1 y x = PLATFORM := by
  unfold G1.platStep
  split
  · exact Or.inl rfl
  · split
    · exact platWrite_cases cols _ i _ s.1 y x
    · exact Or.inl rfl

theorem WF_platStep (cols2 cols index : ℕ) (o : G1.Oracle) (gr : List ℤ)
    (s : List (List ℕ) × ℕ) (i : ℕ) (hwf : G1.WF cols2 s.1) :
    G1.WF cols2 (G1.platStep cols index o gr s i).1 := by
  unfold G1.platStep
  split
  · exact hwf
  · split
    · exact WF_platWrite cols2 cols _ i _ s.1 hwf
    · exact hwf

theorem spikeStep_ne (index : ℕ) (o : G1.Oracle) (gr : List ℤ) (y x : ℤ)
    (s : List (List ℕ) × Finset (ℤ × ℤ) × ℕ) (i : ℕ) (hx : x.toNat ≠ i) :
    mapAt (G1.spikeStep index o gr s i).1 y x = mapAt s.1 y x := by
  unfold G1.spikeStep
  split
  · rfl
  · split
    · exact mapAt_set_ne s.1 _ _ y x SPIKE (fun hc => hx (by simpa using hc.2))
    · rfl

theorem WF_spikeStep (cols2 index : ℕ) (o : G1.Oracle) (gr : List ℤ)
    (s : List (List ℕ) × Finset (ℤ × ℤ) × ℕ) (i : ℕ) (hwf : G1.WF cols2 s.1) :
    G1.WF cols2 (G1.spikeStep index o gr s i).1 := by
  unfold G1.spikeStep
  split
  · exact hwf
  · split
    · exact WF_mapSet cols2 s.1 _ _ SPIKE hwf
    · exact hwf

theorem coinStep_pres (index : ℕ) (o : G1.Oracle) (gr : List ℤ) (y x : ℤ)
    (s : List (List ℕ) × Finset (ℤ × ℤ) × ℕ) (i : ℕ) (hP : mapAt s.1 y x ≠ EMPTY) :
    mapAt (G1.coinStep index o gr s i).1 y x = mapAt s.1 y x := by
  unfold G1.coinStep
  split
  · rfl
  · split
    · split
      · rename_i hg
        by_cases hcell : y.toNat = (gr.getD i 20 - (2 + (o.ints s.2.2 : ℤ) % 3)).toNat ∧
            x.toNat = ((i : ℤ)).toNat
        · exact absurd ((mapAt_congr s.1 _ _ y x hcell.1 hcell.2).trans
            (eq_of_beq hg.2)) hP
        · exact mapAt_set_ne s.1 _ _ y x COIN hcell
      · rfl
    · rfl

theorem coinStep_cases (index : ℕ) (o : G1.Oracle) (gr : List ℤ) (y x : ℤ)
    (s : List (List ℕ) × Finset (ℤ × ℤ) × ℕ) (i : ℕ) :
    mapAt (G1.coinStep index o gr s i).1 y x = mapAt s.1 y x ∨
      mapAt (G1.coinStep index o gr s i).1 y x = COIN := by
  unfold G1.coinStep
  split
  · exact Or.inl rfl
  · split
    · split
      · exact mapAt_set_cases s.1 _ _ y x COIN
      · exact Or.inl rfl
    · exact Or.inl rfl

theorem WF_coinStep (cols2 index : ℕ) (o : G1.Oracle) (gr : List ℤ)
    (s : List (List ℕ) × Finset (ℤ × ℤ) × ℕ) (i : ℕ) (hwf : G1.WF cols2 s.1) :
    G1.WF cols2 (G1.coinStep index o gr s i).1 := by
  unfold G1.coinStep
  split
  · exact hwf
  · split
    · split
      · exact WF_mapSet cols2 s.1 _ _ COIN hwf
      · exact hwf
    · exact hwf

theorem springStep_ne (index : ℕ) (o : G1.Oracle) (gr : List ℤ) (y x : ℤ)
    (s : List (List ℕ) × Finset (ℤ × ℤ) × ℕ) (i : ℕ) (hx : x.toNat ≠ i) :
    mapAt (G1.springStep index o gr s i).1 y x = mapAt s.1 y x := by
  unfold G1.springStep
  split
  · split
    · exact mapAt_set_ne s.1 _ _ y x SPRING (fun hc => hx (by simpa using hc.2))
    · rfl
  · rfl

theorem WF_springStep (cols2 index : ℕ) (o : G1.Oracle) (gr : List ℤ)
    (s : List (List ℕ) × Finset (ℤ × ℤ) × ℕ) (i : ℕ) (hwf : G1.WF cols2 s.1) :
    G1.WF cols2 (G1.springStep index o gr s i).1 := by
  unfold G1.springStep
  split
  · split
    · exact WF_mapSet cols2 s.1 _ _ SPRING hwf
    · exact hwf
  · exact hwf

theorem platPhase_pres (index : ℕ) (o : G1.Oracle) (y x : ℤ)
    (hne : mapAt (G1.layTerrain (G1.colsOf index) (G1.groundOf index o)) y x ≠ EMPTY) :
    mapAt (G1.platformsPhase index o).1 y x
      = mapAt (G1.layTerrain (G1.colsOf index) (G1.groundOf index o)) y x := by
  unfold G1.platformsPhase
  refine fold_pres_proj _ Prod.fst y x (fun t => t ≠ EMPTY) _ ?_ _ hne
  intro s i _ hP
  exact platStep_pres (G1.colsOf index) index o (G1.groundOf index o) y x s i hP

theorem platPhase_cases (index : ℕ) (o : G1.Oracle) (y x : ℤ) :
    mapAt (G1.platformsPhase index o).1 y x
        = mapAt (G1.layTerrain (G1.colsOf index) (G1.groundOf index o)) y x ∨
      mapAt (G1.platformsPhase index o).1 y x = PLATFORM := by
  unfold G1.platformsPhase
  refine fold_cases_proj _ Prod.fst y x PLATFORM ?_ _ _
  intro s i
  exact platStep_cases (G1.colsOf index) index o (G1.groundOf index o) y x s i

theorem WF_platPhase (index : ℕ) (o : G1.Oracle) :
    G1.WF (G1.colsOf index) (G1.platformsPhase index o).1 := by
  unfold G1.platformsPhase
  refine fold_WF_proj (G1.colsOf index) _ Prod.fst ?_ _ _
    (WF_layTerrain (G1.colsOf index) (G1.groundOf index o))
  intro s i h
  exact WF_platStep (G1.colsOf index) (G1.colsOf index) index o (G1.groundOf index o) s i h

theorem spikePhase_ne (index : ℕ) (o : G1.Oracle) (y x : ℤ) (hx0 : 0 ≤ x) (hx8 : x < 8) :
    mapAt (G1.spikesPhase index o).1 y x = mapAt (G1.platformsPhase index o).1 y x := by
  unfold G1.spikesPhase
  refine fold_pres_proj _ Prod.fst y x (fun _ => True) _ ?_ _ trivial
  intro s i hi _
  have h8 : 8 ≤ i := (List.mem_range'_1.mp hi).1
  exact spikeStep_ne index o (G1.groundOf index o) y x s i (by omega)

theorem WF_spikePhase (index : ℕ) (o : G1.Oracle) :
    G1.WF (G1.colsOf index) (G1.spikesPhase index o).1 := by
  unfold G1.spikesPhase
  refine fold_WF_proj (G1.colsOf index) _ Prod.fst ?_ _ _ (WF_platPhase index o)
  intro s i h
  exact WF_spikeStep (G1.colsOf index) index o (G1.groundOf index o) s i h

theorem coinPhase_pres (index : ℕ) (o : G1.Oracle) (y x : ℤ)
    (hne : mapAt (G1.spikesPhase index o).1 y x ≠ EMPTY) :
    mapAt (G1.coinsPhase index o).1 y x = mapAt (G1.spikesPhase index o).1 y x := by
  unfold G1.coinsPhase
  refine fold_pres_proj _ Prod.fst y x (fun t => t ≠ EMPTY) _ ?_ _ hne
  intro s i _ hP
  exact coinStep_pres index o (G1.groundOf index o) y x s i hP

theorem coinPhase_cases (index : ℕ) (o : G1.Oracle) (y x : ℤ) :
    mapAt (G1.coinsPhase index o).1 y x = mapAt (G1.spikesPhase index o).1 y x ∨
      mapAt (G1.coinsPhase index o).1 y x = COIN := by
  unfold G1.coinsPhase
  refine fold_cases_proj _ Prod.fst y x COIN ?_ _ _
  intro s i
  exact coinStep_cases index o (G1.groundOf index o) y x s i

theorem WF_coinPhase (index : ℕ) (o : G1.Oracle) :
    G1.WF (G1.colsOf index) (G1.coinsPhase index o).1 := by
  unfold G1.coinsPhase
  refine fold_WF_proj (G1.colsOf index) _ Prod.fst ?_ _ _ (WF_spikePhase index o)
  intro s i h
  exact WF_coinStep (G1.colsOf index) index o (G1.groundOf index o) s i h

theorem springPhase_ne (index : ℕ) (o : G1.Oracle) (y x : ℤ) (hx0 : 0 ≤ x) (hx10 : x < 10) :
    mapAt (G1.springsPhase index o).1 y x = mapAt (G1.coinsPhase index o).1 y x := by
  unfold G1.springsPhase
  refine fold_pres_proj _ Prod.fst y x (fun _ => True) _ ?_ _ trivial
  intro s i hi _
  have h10 : 10 ≤ i := (List.mem_range'_1.mp hi).1
  exact springStep_ne index o (G1.groundOf index o) y x s i (by omega)

theorem WF_springPhase (index : ℕ) (o : G1.Oracle) :
    G1.WF (G1.colsOf index) (G1.springsPhase index o).1 := by
  unfold G1.springsPhase
  refine fold_WF_proj (G1.colsOf index) _ Prod.fst ?_ _ _ (WF_coinPhase index o)
  intro s i h
  exact WF_springStep (G1.colsOf index) index o (G1.groundOf index o) s i h

theorem enemyLoop_grid (cols : ℕ) (o : G1.Oracle) (g : ℕ → ℕ) (gr : List ℤ) (count : ℕ)
    (y x : ℤ) : ∀ (fuel : ℕ) (s : List (List ℕ) × List G1.GEnemy × ℕ × ℕ),
    mapAt (G1.enemyLoop cols o g gr count fuel s).1 y x = mapAt s.1 y x := by
  intro fuel
  induction fuel with
  | zero => intro s; rfl
  | succ fuel ih =>
    intro s
    show mapAt (if s.2.1.length < count then _ else s).1 y x = mapAt s.1 y x
    split
    · split
      · exact ih _
      · split
        · refine (ih _).trans ?_
          show mapAt (if mapAt s.1 (gr.getD (8 + o.ints s.2.2.1 % (cols - 13)) 20 - 1)
              ((8 + o.ints s.2.2.1 % (cols - 13) : ℕ) : ℤ) == EMPTY then
            mapSet s.1 (gr.getD (8 + o.ints s.2.2.1 % (cols - 13)) 20 - 1)
              ((8 + o.ints s.2.2.1 % (cols - 13) : ℕ) : ℤ) EMPTY
            else s.1) y x = mapAt s.1 y x
          split
          · rename_i hg
            by_cases hcell : y.toNat = (gr.getD (8 + o.ints s.2.2.1 % (cols - 13)) 20 - 1).toNat
                ∧ x.toNat = ((8 + o.ints s.2.2.1 % (cols - 13) : ℕ) : ℤ).toNat
            · rcases mapAt_set_cases s.1 _ _ y x EMPTY with hc | hc
              · exact hc
              · rw [hc, mapAt_congr s.1 _ _ y x hcell.1 hcell.2]
                exact (eq_of_beq hg).symm
            · exact mapAt_set_ne s.1 _ _ y x EMPTY hcell
          · rfl
        · exact ih _
    · rfl

theorem WF_enemyLoop (cols2 cols : ℕ) (o : G1.Oracle) (g : ℕ → ℕ) (gr : List ℤ)
    (count : ℕ) : ∀ (fuel : ℕ) (s : List (List ℕ) × List G1.GEnemy × ℕ × ℕ),
    G1.WF cols2 s.1 → G1.WF cols2 (G1.enemyLoop cols o g gr count fuel s).1 := by
  intro fuel
  induction fuel with
  | zero => intro s h; exact h
  | succ fuel ih =>
    intro s h
    show G1.WF cols2 (if s.2.1.length < count then _ else s).1
    split
    · split
      · exact ih _ h
      · split
        · refine ih _ ?_
          show G1.WF cols2 (if _ == EMPTY then mapSet s.1 _ _ EMPTY else s.1)
          split
          · exact WF_mapSet cols2 s.1 _ _ EMPTY h
          · exact h
        · exact ih _ h
    · exact h

theorem enemyPhase_grid (index : ℕ) (o : G1.Oracle) (g : ℕ → ℕ) (y x : ℤ) :
    mapAt (G1.enemiesPhase index o g).1 y x = mapAt (G1.springsPhase index o).1 y x :=
  enemyLoop_grid (G1.colsOf index) o g (G1.groundOf index o) (G1.enemyCount index) y x _ _

theorem WF_enemyPhase (index : ℕ) (o : G1.Oracle) (g : ℕ → ℕ) :
    G1.WF (G1.colsOf index) (G1.enemiesPhase index o g).1 :=
  WF_enemyLoop (G1.colsOf index) (G1.colsOf index) o g (G1.groundOf index o)
    (G1.enemyCount index) _ _ (WF_springPhase index o)

theorem enemyLoop_rects (cols : ℕ) (o : G1.Oracle) (g1 g2 : ℕ → ℕ) (gr : List ℤ)
    (count : ℕ) :
    ∀ (fuel : ℕ) (m : List (List ℕ)) (es1 es2 : List G1.GEnemy) (k j : ℕ),
      es1.map G1.GEnemy.rect = es2.map G1.GEnemy.rect →
      (G1.enemyLoop cols o g1 gr count fuel (m, es1, k, j)).1
          = (G1.enemyLoop cols o g2 gr count fuel (m, es2, k, j)).1 ∧
        ((G1.enemyLoop cols o g1 gr count fuel (m, es1, k, j)).2.1).map G1.GEnemy.rect
          = ((G1.enemyLoop cols o g2 gr count fuel (m, es2, k, j)).2.1).map G1.GEnemy.rect := by
  intro fuel
  induction fuel with
  | zero => intro m es1 es2 k j h; exact ⟨rfl, h⟩
  | succ fuel ih =>
    intro m es1 es2 k j h
    have hlen : es1.length = es2.length := by
      have := congrArg List.length h
      simpa using this
    have hstep : ∀ (g : ℕ → ℕ) (es : List G1.GEnemy),
        G1.enemyLoop cols o g gr count (fuel + 1) (m, es, k, j)
          = if es.length < count then
              if gr.getD (8 + o.ints k % (cols - 13)) 20 ≥ 20 then
                G1.enemyLoop cols o g gr count fuel (m, es, k + 1, j)
              else if (mapAt m (gr.getD (8 + o.ints k % (cols - 13)) 20 - 1)
                      ((8 + o.ints k % (cols - 13) : ℕ) : ℤ) == EMPTY
                    || mapAt m (gr.getD (8 + o.ints k % (cols - 13)) 20 - 1)
                      ((8 + o.ints k % (cols - 13) : ℕ) : ℤ) == COIN)
                  ∧ mapAt m (gr.getD (8 + o.ints k % (cols - 13)) 20 - 1)
                      ((8 + o.ints k % (cols - 13) : ℕ) : ℤ) ≠ SPIKE then
                G1.enemyLoop cols o g gr count fuel
                  ((if mapAt m (gr.getD (8 + o.ints k % (cols - 13)) 20 - 1)
                        ((8 + o.ints k % (cols - 13) : ℕ) : ℤ) == EMPTY then
                      mapSet m (gr.getD (8 + o.ints k % (cols - 13)) 20 - 1)
                        ((8 + o.ints k % (cols - 13) : ℕ) : ℤ) EMPTY
                    else m),
                    es ++ [⟨⟨((8 + o.ints k % (cols - 13) : ℕ) : ℤ) * 20 + 2,
                      (gr.getD (8 + o.ints k % (cols - 13)) 20 - 1 + 1) * 20 - 14, 16, 14⟩,
                      if g j % 2 == 0 then -(11 / 10 : ℚ) else 11 / 10⟩],
                    k + 1, j + 1)
              else G1.enemyLoop cols o g gr count fuel (m, es, k + 1, j)
            else (m, es, k, j) := fun g es => rfl
    rw [hstep g1 es1, hstep g2 es2, ← hlen]
    by_cases hc : es1.length < count
    · rw [if_pos hc, if_pos hc]
      by_cases hg : gr.getD (8 + o.ints k % (cols - 13)) 20 ≥ 20
      · rw [if_pos hg, if_pos hg]
        exact ih m es1 es2 (k + 1) j h
      · rw [if_neg hg, if_neg hg]
        by_cases hq : (mapAt m (gr.getD (8 + o.ints k % (cols - 13)) 20 - 1)
              ((8 + o.ints k % (cols - 13) : ℕ) : ℤ) == EMPTY
            || mapAt m (gr.getD (8 + o.ints k % (cols - 13)) 20 - 1)
              ((8 + o.ints k % (cols - 13) : ℕ) : ℤ) == COIN)
          ∧ mapAt m (gr.getD (8 + o.ints k % (cols - 13)) 20 - 1)
              ((8 + o.ints k % (cols - 13) : ℕ) : ℤ) ≠ SPIKE
        · rw [if_pos hq, if_pos hq]
          refine ih _ _ _ (k + 1) (j + 1) ?_
          rw [List.map_append, List.map_append, h]
          rfl
        · rw [if_neg hq, if_neg hq]
          exact ih m es1 es2 (k + 1) j h
    · rw [if_neg hc, if_neg hc]
      exact ⟨rfl, h⟩

/-- C1: re-running level construction with the same index reproduces the tile
grid, the coin, spring and spike sets, the spawn and exit cells, and the enemy
positions — the seeded stream `random.Random(1337 + index * 99991)` is a pure
function of the index — but the initial walk velocity of each enemy is drawn
from the process-global `random` module inside `Enemy.__init__`, so two
constructions of the same index can disagree on every enemy facing: the
generated level is not a pure function of the index. -/
theorem c1_generation_depends_on_global_rng :
    (∀ (O : ℕ → G1.Oracle) (g1 g2 : ℕ → ℕ) (index : ℕ),
        G1.scrub (G1.generateAt O g1 index) = G1.scrub (G1.generateAt O g2 index)) ∧
      (G1.generateAt (fun _ => G1.oFlat) G1.gZero 0).enemies.map G1.GEnemy.vx
        ≠ (G1.generateAt (fun _ => G1.oFlat) G1.gOne 0).enemies.map G1.GEnemy.vx := by
  constructor
  · intro O g1 g2 index
    obtain ⟨hm, he⟩ := enemyLoop_rects (G1.colsOf index) (O (G1.seedOf index)) g1 g2
      (G1.groundOf index (O (G1.seedOf index))) (G1.enemyCount index)
      (G1.enemyCount index * 8) (G1.springsPhase index (O (G1.seedOf index))).1 [] []
      (G1.springsPhase index (O (G1.seedOf index))).2.2 0 rfl
    have hm2 : (G1.enemiesPhase index (O (G1.seedOf index)) g1).1
        = (G1.enemiesPhase index (O (G1.seedOf index)) g2).1 := hm
    have he2 : ((G1.enemiesPhase index (O (G1.seedOf index)) g1).2.1).map G1.GEnemy.rect
        = ((G1.enemiesPhase index (O (G1.seedOf index)) g2).2.1).map G1.GEnemy.rect := he
    show (G1.colsOf index,
        mapSet (G1.enemiesPhase index (O (G1.seedOf index)) g1).1
          (G1.exitOf index (O (G1.seedOf index))).2
          (G1.exitOf index (O (G1.seedOf index))).1 EXIT,
        (G1.coinsPhase index (O (G1.seedOf index))).2.1,
        (G1.springsPhase index (O (G1.seedOf index))).2.1,
        (G1.spikesPhase index (O (G1.seedOf index))).2.1,
        G1.spawnOf index (O (G1.seedOf index)),
        G1.exitOf index (O (G1.seedOf index)),
        ((G1.enemiesPhase index (O (G1.seedOf index)) g1).2.1).map G1.GEnemy.rect)
      = (G1.colsOf index,
        mapSet (G1.enemiesPhase index (O (G1.seedOf index)) g2).1
          (G1.exitOf index (O (G1.seedOf index))).2
          (G1.exitOf index (O (G1.seedOf index))).1 EXIT,
        (G1.coinsPhase index (O (G1.seedOf index))).2.1,
        (G1.springsPhase index (O (G1.seedOf index))).2.1,
        (G1.spikesPhase index (O (G1.seedOf index))).2.1,
        G1.spawnOf index (O (G1.seedOf index)),
        G1.exitOf index (O (G1.seedOf index)),
        ((G1.enemiesPhase index (O (G1.seedOf index)) g2).2.1).map G1.GEnemy.rect)
    rw [hm2, he2]
  · decide

theorem spawnOf_eq (index : ℕ) (o : G1.Oracle)
    (hlt : (G1.groundOf index o).getD
      (G1.spawnScan (G1.groundOf index o) (G1.colsOf index) (G1.colsOf index) 2) 20 < 20) :
    G1.spawnOf index o
      = (((G1.spawnScan (G1.groundOf index o) (G1.colsOf index) (G1.colsOf index) 2 : ℕ) : ℤ),
        (G1.groundOf index o).getD
          (G1.spawnScan (G1.groundOf index o) (G1.colsOf index) (G1.colsOf index) 2) 20
          - 1) := by
  unfold G1.spawnOf
  rw [if_pos hlt]

theorem exit_col_ge (index : ℕ) (o : G1.Oracle) :
    G1.colsOf index - 12
      ≤ G1.exitScan (G1.groundOf index o) (G1.colsOf index) (G1.colsOf index)
        (G1.colsOf index - 3) := by
  have hcols := colsOf_ge index
  exact (exitScan_spec (G1.groundOf index o) (G1.colsOf index) (G1.colsOf index)
    (G1.colsOf index - 3) (by omega) (by omega)).1

theorem spawn_col_cells (index : ℕ) (o : G1.Oracle) (g : ℕ → ℕ) (s : ℕ) (hs7 : s ≤ 7)
    (hg10 : 10 ≤ (G1.groundOf index o).getD s 20)
    (hg17 : (G1.groundOf index o).getD s 20 ≤ 17) :
    mapAt (G1.generate index o g).grid ((G1.groundOf index o).getD s 20) (s : ℤ) = GRASS ∧
      (mapAt (G1.generate index o g).grid ((G1.groundOf index o).getD s 20 - 1) (s : ℤ)
          = EMPTY ∨
        mapAt (G1.generate index o g).grid ((G1.groundOf index o).getD s 20 - 1) (s : ℤ)
          = PLATFORM ∨
        mapAt (G1.generate index o g).grid ((G1.groundOf index o).getD s 20 - 1) (s : ℤ)
          = COIN) := by
  have hcols := colsOf_ge index
  have hexit := exit_col_ge index o
  have hnotexit : ∀ r : ℤ, mapAt (G1.generate index o g).grid r (s : ℤ)
      = mapAt (G1.enemiesPhase index o g).1 r (s : ℤ) := by
    intro r
    show mapAt (mapSet (G1.enemiesPhase index o g).1 (G1.exitOf index o).2
      (G1.exitOf index o).1 EXIT) r (s : ℤ) = _
    refine mapAt_set_ne _ _ _ r (s : ℤ) EXIT ?_
    intro hcon
    have h2 := hcon.2
    have hcol : (G1.exitOf index o).1
        = ((G1.exitScan (G1.groundOf index o) (G1.colsOf index) (G1.colsOf index)
          (G1.colsOf index - 3) : ℕ) : ℤ) := rfl
    rw [hcol] at h2
    omega
  have hchain : ∀ r : ℤ, mapAt (G1.enemiesPhase index o g).1 r (s : ℤ)
      = mapAt (G1.coinsPhase index o).1 r (s : ℤ) := by
    intro r
    exact (enemyPhase_grid index o g r (s : ℤ)).trans
      (springPhase_ne index o r (s : ℤ) (by omega) (by omega))
  constructor
  · have hterr : mapAt (G1.layTerrain (G1.colsOf index) (G1.groundOf index o))
        ((G1.groundOf index o).getD s 20) (s : ℤ) = GRASS := by
      have := layTerrain_grass (G1.colsOf index) (G1.groundOf index o) s (by omega) hg10
        (by omega)
      exact this
    have hplat := (platPhase_pres index o ((G1.groundOf index o).getD s 20) (s : ℤ)
      (by rw [hterr]; decide)).trans hterr
    have hspike := (spikePhase_ne index o ((G1.groundOf index o).getD s 20) (s : ℤ)
      (by omega) (by omega)).trans hplat
    have hcoin := (coinPhase_pres index o ((G1.groundOf index o).getD s 20) (s : ℤ)
      (by rw [hspike]; decide)).trans hspike
    rw [hnotexit, hchain]
    exact hcoin
  · have hterr0 : mapAt (G1.layTerrain (G1.colsOf index) (G1.groundOf index o))
        ((G1.groundOf index o).getD s 20 - 1) (s : ℤ) = EMPTY :=
      layTerrain_above (G1.colsOf index) (G1.groundOf index o) s _ (by omega) (by omega)
    have hsp : mapAt (G1.spikesPhase index o).1 ((G1.groundOf index o).getD s 20 - 1)
          (s : ℤ) = EMPTY ∨
        mapAt (G1.spikesPhase index o).1 ((G1.groundOf index o).getD s 20 - 1) (s : ℤ)
          = PLATFORM := by
      rcases platPhase_cases index o ((G1.groundOf index o).getD s 20 - 1) (s : ℤ)
        with hP | hP
      · exact Or.inl ((spikePhase_ne index o _ (s : ℤ) (by omega) (by omega)).trans
          (hP.trans hterr0))
      · exact Or.inr ((spikePhase_ne index o _ (s : ℤ) (by omega) (by omega)).trans hP)
    have hco : mapAt (G1.coinsPhase index o).1 ((G1.groundOf index o).getD s 20 - 1)
          (s : ℤ) = EMPTY ∨
        mapAt (G1.coinsPhase index o).1 ((G1.groundOf index o).getD s 20 - 1) (s : ℤ)
          = PLATFORM ∨
        mapAt (G1.coinsPhase index o).1 ((G1.groundOf index o).getD s 20 - 1) (s : ℤ)
          = COIN := by
      rcases hsp with hv | hv
      · rcases coinPhase_cases index o ((G1.groundOf index o).getD s 20 - 1) (s : ℤ)
          with hC | hC
        · exact Or.inl (hC.trans hv)
        · exact Or.inr (Or.inr hC)
      · exact Or.inr (Or.inl ((coinPhase_pres index o _ (s : ℤ)
          (by rw [hv]; decide)).trans hv))
    rw [hnotexit, hchain]
    exact hco

/-- C5 counterexample: on the recorded seeded stream where every pit roll
succeeds, every column of level 0 is a pit; the spawn scan runs off to column
59 and leaves the spawn at the fallback row 6, with the cell below it `EMPTY`
— the spawn does not sit on solid ground. -/
theorem c5_spawn_over_pit :
    (G1.generate 0 G1.oPit G1.gZero).spawn = (59, 6) ∧
      solidCode (mapAt (G1.generate 0 G1.oPit G1.gZero).grid
        ((G1.generate 0 G1.oPit G1.gZero).spawn.2 + 1)
        (G1.generate 0 G1.oPit G1.gZero).spawn.1) = false := by
  decide

/-- C5 (amended): if some column among 2..7 is not a pit, the spawn lands on
the first such column: its cell holds neither `SPIKE` nor `SPRING` (those
phases only touch columns at 8 and 10 onward), and the cell one row below it
is solid ground.  Without that proviso the spawn can hang over a pit
(`c5_spawn_over_pit`). -/
theorem c5_spawn_safety (index : ℕ) (o : G1.Oracle) (g : ℕ → ℕ)
    (h : ∃ x : ℕ, 2 ≤ x ∧ x ≤ 7 ∧ (G1.groundOf index o).getD x 20 < 20) :
    mapAt (G1.generate index o g).grid (G1.generate index o g).spawn.2
        (G1.generate index o g).spawn.1 ≠ SPIKE ∧
      mapAt (G1.generate index o g).grid (G1.generate index o g).spawn.2
        (G1.generate index o g).spawn.1 ≠ SPRING ∧
      solidCode (mapAt (G1.generate index o g).grid
        ((G1.generate index o g).spawn.2 + 1) (G1.generate index o g).spawn.1) = true := by
  obtain ⟨x0, hx2, hx7, hxg⟩ := h
  have hcols := colsOf_ge index
  obtain ⟨hs2, hsx0, hslt⟩ := spawnScan_finds (G1.groundOf index o) (G1.colsOf index)
    (G1.colsOf index) 2 x0 hx2 (by omega) (by omega) hxg
  have hspawn : (G1.generate index o g).spawn
      = (((G1.spawnScan (G1.groundOf index o) (G1.colsOf index) (G1.colsOf index) 2 : ℕ) : ℤ),
        (G1.groundOf index o).getD
          (G1.spawnScan (G1.groundOf index o) (G1.colsOf index) (G1.colsOf index) 2) 20
          - 1) := spawnOf_eq index o hslt
  have hg10 : 10 ≤ (G1.groundOf index o).getD
      (G1.spawnScan (G1.groundOf index o) (G1.colsOf index) (G1.colsOf index) 2) 20 := by
    rcases ground_mem index o
      (G1.spawnScan (G1.groundOf index o) (G1.colsOf index) (G1.colsOf index) 2)
      with ⟨h1, _⟩ | h1
    · exact h1
    · omega
  have hg17 : (G1.groundOf index o).getD
      (G1.spawnScan (G1.groundOf index o) (G1.colsOf index) (G1.colsOf index) 2) 20
        ≤ 17 := by
    rcases ground_mem index o
      (G1.spawnScan (G1.groundOf index o) (G1.colsOf index) (G1.colsOf index) 2)
      with ⟨_, h1⟩ | h1
    · exact h1
    · omega
  obtain ⟨hbelow, habove⟩ := spawn_col_cells index o g
    (G1.spawnScan (G1.groundOf index o) (G1.colsOf index) (G1.colsOf index) 2)
    (by omega) hg10 hg17
  rw [hspawn]
  refine ⟨?_, ?_, ?_⟩
  · show mapAt (G1.generate index o g).grid
      ((G1.groundOf index o).getD
        (G1.spawnScan (G1.groundOf index o) (G1.colsOf index) (G1.colsOf index) 2) 20 - 1)
      ((G1.spawnScan (G1.groundOf index o) (G1.colsOf index) (G1.colsOf index) 2 : ℕ) : ℤ)
      ≠ SPIKE
    rcases habove with hv | hv | hv <;> rw [hv] <;> decide
  · show mapAt (G1.generate index o g).grid
      ((G1.groundOf index o).getD
        (G1.spawnScan (G1.groundOf index o) (G1.colsOf index) (G1.colsOf index) 2) 20 - 1)
      ((G1.spawnScan (G1.groundOf index o) (G1.colsOf index) (G1.colsOf index) 2 : ℕ) : ℤ)
      ≠ SPRING
    rcases habove with hv | hv | hv <;> rw [hv] <;> decide
  · show solidCode (mapAt (G1.generate index o g).grid
      ((G1.groundOf index o).getD
        (G1.spawnScan (G1.groundOf index o) (G1.colsOf index) (G1.colsOf index) 2) 20 - 1
        + 1)
      ((G1.spawnScan (G1.groundOf index o) (G1.colsOf index) (G1.colsOf index) 2 : ℕ) : ℤ))
      = true
    rw [show (G1.groundOf index o).getD
        (G1.spawnScan (G1.groundOf index o) (G1.colsOf index) (G1.colsOf index) 2) 20 - 1
        + 1
      = (G1.groundOf index o).getD
        (G1.spawnScan (G1.groundOf index o) (G1.colsOf index) (G1.colsOf index) 2) 20
      from by omega]
    rw [hbelow]
    decide

/-- C5 witness: level 0 on the all-rolls-fail stream has flat ground at row
12; column 2 is not a pit, the spawn is at `(2, 11)` on safe ground. -/
theorem c5_spawn_safety_witness :
    (∃ x : ℕ, 2 ≤ x ∧ x ≤ 7 ∧ (G1.groundOf 0 G1.oFlat).getD x 20 < 20) ∧
      (mapAt (G1.generate 0 G1.oFlat G1.gZero).grid
          (G1.generate 0 G1.oFlat G1.gZero).spawn.2
          (G1.generate 0 G1.oFlat G1.gZero).spawn.1 ≠ SPIKE ∧
        mapAt (G1.generate 0 G1.oFlat G1.gZero).grid
          (G1.generate 0 G1.oFlat G1.gZero).spawn.2
          (G1.generate 0 G1.oFlat G1.gZero).spawn.1 ≠ SPRING ∧
        solidCode (mapAt (G1.generate 0 G1.oFlat G1.gZero).grid
          ((G1.generate 0 G1.oFlat G1.gZero).spawn.2 + 1)
          (G1.generate 0 G1.oFlat G1.gZero).spawn.1) = true) :=
  ⟨⟨2, by decide, by decide, by decide⟩,
    c5_spawn_safety 0 G1.oFlat G1.gZero ⟨2, by decide, by decide, by decide⟩⟩

/-- C6 counterexample: level 0 on the all-rolls-fail stream has ground at row
12 everywhere; the backward scan stops at its start column 57, but the Exit
tile is placed at row `12 - 2 = 10`, two rows above the ground row rather than
the one row the claim states. -/
theorem c6_exit_not_one_above :
    (G1.generate 0 G1.oFlat G1.gZero).exitCell.1 = 57 ∧
      (G1.groundOf 0 G1.oFlat).getD 57 20 = 12 ∧
      (G1.generate 0 G1.oFlat G1.gZero).exitCell.2
        = (G1.groundOf 0 G1.oFlat).getD 57 20 - 2 ∧
      (G1.generate 0 G1.oFlat G1.gZero).exitCell.2
        ≠ (G1.groundOf 0 G1.oFlat).getD 57 20 - 1 := by
  decide

/-- C6 (amended): the exit scan starts at column `cols - 3` and walks left
only down to column `cols - 12`, skipping pits; the exit lands on the first
non-pit column found (or on `cols - 12` as the fallback), at row
`ground - 2` — two rows above the ground row, not one — or row 6 over a pit,
clamped into `[3, ROWS - 4]`; the Exit tile is always written into the grid. -/
theorem c6_exit_scan (index : ℕ) (o : G1.Oracle) (g : ℕ → ℕ) :
    ∃ gx : ℕ,
      G1.colsOf index - 12 ≤ gx ∧ gx ≤ G1.colsOf index - 3 ∧
        (∀ t : ℕ, gx < t → t ≤ G1.colsOf index - 3 →
          (G1.groundOf index o).getD t 20 ≥ 20) ∧
        (gx = G1.colsOf index - 12 ∨ (G1.groundOf index o).getD gx 20 < 20) ∧
        (G1.generate index o g).exitCell
          = ((gx : ℤ), clampZ (if (G1.groundOf index o).getD gx 20 < 20 then
              (G1.groundOf index o).getD gx 20 - 2 else 6) 3 16) ∧
        mapAt (G1.generate index o g).grid (G1.generate index o g).exitCell.2
          (G1.generate index o g).exitCell.1 = EXIT := by
  have hcols := colsOf_ge index
  obtain ⟨h1, h2, h3, h4⟩ := exitScan_spec (G1.groundOf index o) (G1.colsOf index)
    (G1.colsOf index) (G1.colsOf index - 3) (by omega) (by omega)
  refine ⟨G1.exitScan (G1.groundOf index o) (G1.colsOf index) (G1.colsOf index)
    (G1.colsOf index - 3), h1, h2, h3, h4, rfl, ?_⟩
  have hwf := WF_enemyPhase index o g
  have hy2 : (G1.exitOf index o).2
      = clampZ (if (G1.groundOf index o).getD
            (G1.exitScan (G1.groundOf index o) (G1.colsOf index) (G1.colsOf index)
              (G1.colsOf index - 3)) 20 < 20 then
          (G1.groundOf index o).getD
            (G1.exitScan (G1.groundOf index o) (G1.colsOf index) (G1.colsOf index)
              (G1.colsOf index - 3)) 20 - 2
        else 6) 3 16 := rfl
  have hybounds := clampZ_mem (if (G1.groundOf index o).getD
        (G1.exitScan (G1.groundOf index o) (G1.colsOf index) (G1.colsOf index)
          (G1.colsOf index - 3)) 20 < 20 then
      (G1.groundOf index o).getD
        (G1.exitScan (G1.groundOf index o) (G1.colsOf index) (G1.colsOf index)
          (G1.colsOf index - 3)) 20 - 2
    else 6) 3 16 (by omega)
  have hcol : (G1.exitOf index o).1
      = ((G1.exitScan (G1.groundOf index o) (G1.colsOf index) (G1.colsOf index)
        (G1.colsOf index - 3) : ℕ) : ℤ) := rfl
  show mapAt (mapSet (G1.enemiesPhase index o g).1 (G1.exitOf index o).2
    (G1.exitOf index o).1 EXIT) (G1.exitOf index o).2 (G1.exitOf index o).1 = EXIT
  refine mapAt_set_self (G1.colsOf index) _ _ _ EXIT hwf ?_ ?_ ?_ ?_
  · rw [hy2]; omega
  · rw [hy2]; omega
  · rw [hcol]; omega
  · rw [hcol]; omega
